import Mathlib

/-!
# Sliding-window ARQ simulation (`gfgfg.cpp`)

A shallow embedding of the sender, the receiver, the frame checksum and the
corruption injection of the simulation, followed by the properties proved
about them.

Modelling conventions.
* `unsigned int` / `uint32_t` values are natural numbers; `u32` is the
  wrap-around where the source can overflow.
* A payload (`char data[MAX_PKT]`) is the list of its byte values.
* `calculate_crc` takes a `std::string`.  Every call site passes the array
  `f.info.data`, which C++ converts as a NUL-terminated string: `c_str` is
  that conversion.  It has no result when the array holds no NUL (the C++
  then reads past the array).
* `std::queue` is a list (front = head), `std::unordered_map` an association
  list with one entry per key.
* Console output is recorded as a list of `Event`s, one constructor per
  `cout` statement, carrying the sequence number printed.
* `rand()` results and the indeterminate bytes of the local `frame f` in the
  `Sender` constructor are parameters.
-/

namespace ARQ

/-! ## Constants -/

def MAX_PKT : Nat := 16
def MAX_SEQ : Nat := 7
def WINDOW_SIZE : Nat := 4
def CRC_POLYNOMIAL : Nat := 0xEDB88320
def CORRUPT_FRAME_PROBABILITY : Nat := 3

/-- Wrap-around of a 32-bit unsigned value. -/
def u32 (n : Nat) : Nat := n % 2 ^ 32

/-- The value of `-1` converted to `seq_nr`. -/
def NAK_MARK : Nat := 4294967295

/-! ## Frames -/

structure packet where
  data : List Nat
deriving DecidableEq, Repr

inductive frame_kind where
  | DATA
  | NAK
deriving DecidableEq, Repr

structure frame where
  kind : frame_kind
  seq : Nat
  ack : Nat
  info : packet
  crc : Nat
deriving DecidableEq, Repr

/-- The macro `inc(k)`: `(k + 1) % (MAX_SEQ + 1)`. -/
def inc (k : Nat) : Nat := (k + 1) % (MAX_SEQ + 1)

/-! ## Checksum -/

/-- One pass of the inner `for (int i = 0; i < 8; ++i)` body of `calculate_crc`. -/
def crc_bit (crc : Nat) : Nat :=
  if crc &&& 0x80000000 ≠ 0 then u32 (crc <<< 1) ^^^ CRC_POLYNOMIAL
  else u32 (crc <<< 1)

/-- The body of `for (char byte : data)`: `crc ^= byte << 24`, then eight
register steps. -/
def crc_byte (crc : Nat) (byte : Nat) : Nat :=
  crc_bit^[8] (crc ^^^ u32 (byte <<< 24))

/-- `calculate_crc(const std::string& data)`. -/
def calculate_crc (data : List Nat) : Nat :=
  u32 (data.foldl crc_byte 0xFFFFFFFF ^^^ 0xFFFFFFFF)

/-- The conversion of `char data[MAX_PKT]` to `std::string` at the call
sites of `calculate_crc`: the bytes before the first NUL.  No result when the
array holds no NUL. -/
def c_str (data : List Nat) : Option (List Nat) :=
  if 0 ∈ data then some (data.takeWhile (fun b => b != 0)) else none

/-- `calculate_crc(f.info.data)` as evaluated by sender and receiver. -/
def frame_crc (f : frame) : Option Nat :=
  (c_str f.info.data).map calculate_crc

/-! ## Corruption injection -/

/-- `corrupt_frame(frame& f)`; `rnd` is the value returned by `rand()`. -/
def corrupt_frame (f : frame) (rnd : Nat) : frame :=
  let data_size := MAX_PKT
  let corruption_bit := rnd % data_size
  { f with info :=
      { data := List.modify (fun b => (b ^^^ 0xFF) % 256) corruption_bit f.info.data } }

/-! ## Console output -/

inductive Event where
  /-- Sender: "Sending frame seq ... and CRC: crc". -/
  | sending (seq crc : Nat)
  /-- Sender: "ACK received for frame seq". -/
  | ack_received (seq : Nat)
  /-- Sender: "Timeout for frame seq". -/
  | timeout (seq : Nat)
  /-- Sender: "Retransmitting frame seq". -/
  | retransmitting (seq : Nat)
  /-- Receiver: "Error in frame seq crc bits: crc. Frame corrupted. Sending NAK". -/
  | error_in_frame (seq crc : Nat)
  /-- Receiver: "Received frame seq". -/
  | received (seq : Nat)
  /-- Receiver: "Delivering frame seq to network layer." -/
  | delivering_frame (seq : Nat)
  /-- Receiver: "Out-of-order frame seq. Buffering it." -/
  | out_of_order (seq : Nat)
  /-- Receiver: "Delivering packet seq to the application layer." -/
  | delivering_packet (seq : Nat)
  /-- Receiver: "Sending NAK". -/
  | sending_nak
  /-- Receiver: "Sending ACK for frame seq". -/
  | sending_ack (seq : Nat)
deriving DecidableEq, Repr

/-! ## The receiver's reorder buffer (`unordered_map<seq_nr, frame>`) -/

abbrev Buffer := List (Nat × frame)

/-- `buffer.find(k)`: the entry under key `k`, if any. -/
def Buffer.find (b : Buffer) (k : Nat) : Option frame :=
  match b with
  | [] => none
  | (k', f) :: rest => if k' = k then some f else Buffer.find rest k

/-- `buffer.erase(k)`. -/
def Buffer.erase (b : Buffer) (k : Nat) : Buffer :=
  b.filter (fun e => e.1 != k)

/-- `buffer[k] = f`: overwrite the entry under `k`, or add one. -/
def Buffer.assign (b : Buffer) (k : Nat) (f : frame) : Buffer :=
  match b with
  | [] => [(k, f)]
  | (k', g) :: rest => if k' = k then (k, f) :: rest else (k', g) :: Buffer.assign rest k f

/-- The `while` loop of `deliver_in_order`, with a bound on the number of
passes.  A pass erases an entry, so `buffer.size()` passes always suffice
(`deliver_in_order_exit` below). -/
def deliver_loop : Nat → Buffer → Nat → Buffer × Nat × List Event
  | 0, buffer, expected_seq => (buffer, expected_seq, [])
  | n + 1, buffer, expected_seq =>
    match buffer.find expected_seq with
    | none => (buffer, expected_seq, [])
    | some f =>
      let r := deliver_loop n (buffer.erase expected_seq) ((expected_seq + 1) % (MAX_SEQ + 1))
      (r.1, r.2.1, Event.delivering_packet f.seq :: r.2.2)

/-- `NetworkLayer::deliver_in_order(buffer, expected_seq)`: the new buffer,
the new `expected_seq` and the output. -/
def deliver_in_order (buffer : Buffer) (expected_seq : Nat) : Buffer × Nat × List Event :=
  deliver_loop buffer.length buffer expected_seq

/-! ## Receiver -/

structure Receiver where
  buffer : Buffer
  ack_queue : List Nat
  expected_seq : Nat
deriving DecidableEq, Repr

/-- `Receiver()`. -/
def Receiver.new : Receiver := { buffer := [], ack_queue := [], expected_seq := 0 }

/-- Lines 166-191 of `receive_frames`: the treatment of a frame `f` taken
from the resend queue. -/
def Receiver.on_frame (r : Receiver) (f : frame) : Option (Receiver × List Event) :=
  match frame_crc f with
  | none => none
  | some calculated_crc =>
    if calculated_crc ≠ f.crc then
      some ({ r with ack_queue := r.ack_queue ++ [NAK_MARK] },
            [Event.error_in_frame f.seq calculated_crc])
    else if f.seq = r.expected_seq then
      let d := deliver_in_order r.buffer r.expected_seq
      some ({ buffer := d.1, expected_seq := (d.2.1 + 1) % (MAX_SEQ + 1),
              ack_queue := r.ack_queue ++ [f.seq] },
            [Event.received f.seq, Event.delivering_frame f.seq] ++ d.2.2)
    else
      some ({ r with buffer := r.buffer.assign f.seq f, ack_queue := r.ack_queue ++ [f.seq] },
            [Event.received f.seq, Event.out_of_order f.seq])

/-- Lines 195-207: the output of draining the acknowledgment queue. -/
def Receiver.send_acks (ack_queue : List Nat) : List Event :=
  ack_queue.map (fun seq_num => if seq_num = NAK_MARK then Event.sending_nak
                                else Event.sending_ack seq_num)

/-- One pass of the `while (true)` loop of `receive_frames`.  `arrival` is the
frame obtained from the sender's resend queue, `none` when the queue was
empty. -/
def Receiver.iteration (r : Receiver) (arrival : Option frame) :
    Option (Receiver × List Event) :=
  match (match arrival with
         | none => some (r, [])
         | some f => r.on_frame f) with
  | none => none
  | some (r1, out1) =>
    let d := deliver_in_order r1.buffer r1.expected_seq
    some ({ buffer := d.1, ack_queue := [], expected_seq := d.2.1 },
          out1 ++ Receiver.send_acks r1.ack_queue ++ d.2.2)

/-- Successive passes of the receiver loop over a sequence of arrivals. -/
def Receiver.receive_frames (r : Receiver) : List (Option frame) →
    Option (Receiver × List Event)
  | [] => some (r, [])
  | a :: rest =>
    match r.iteration a with
    | none => none
    | some (r1, out1) =>
      match Receiver.receive_frames r1 rest with
      | none => none
      | some (r2, out2) => some (r2, out1 ++ out2)

/-- The sequence numbers handed upward: the in-order acceptances
("Delivering frame") and the buffer flushes ("Delivering packet"). -/
def delivered : List Event → List Nat
  | [] => []
  | Event.delivering_frame s :: rest => s :: delivered rest
  | Event.delivering_packet s :: rest => s :: delivered rest
  | _ :: rest => delivered rest

/-- Every entry of the reorder buffer is filed under its own sequence number
and carries the checksum of its payload. -/
def Buffer.keyed (b : Buffer) : Prop :=
  ∀ p ∈ b, p.2.seq = p.1 ∧ frame_crc p.2 = some p.2.crc

instance (b : Buffer) : Decidable b.keyed := by
  unfold Buffer.keyed; infer_instance

/-- The reorder-buffer invariant: no entry under `expected_seq`, and every
entry is a frame that passed the checksum test, filed under its `seq`. -/
def Receiver.buffer_invariant (r : Receiver) : Prop :=
  r.buffer.find r.expected_seq = none ∧ r.buffer.keyed

instance (r : Receiver) : Decidable r.buffer_invariant := by
  unfold Receiver.buffer_invariant; infer_instance

/-- The payload of every arriving frame holds a NUL, so that its conversion
to `std::string` is defined. -/
def terminated (arrivals : List (Option frame)) : Prop :=
  ∀ a ∈ arrivals, ∀ f, a = some f → 0 ∈ f.info.data

instance (arrivals : List (Option frame)) : Decidable (terminated arrivals) := by
  unfold terminated
  exact List.decidableBAll (fun a => ∀ f, a = some f → 0 ∈ f.info.data) arrivals

/-- The frames among the arrivals (the passes that found the queue empty
left out). -/
def frames_of (arrivals : List (Option frame)) : List frame :=
  arrivals.filterMap id

/-! ## Sender -/

/-- `snprintf(f.info.data, sizeof(f.info.data), "Data %d", i)` written over an
array whose previous content is `old`. -/
def snprintf_data (old : List Nat) (i : Nat) : List Nat :=
  let text := (['D', 'a', 't', 'a', ' '] ++ Nat.toDigits 10 i).map Char.toNat
  let written := text.take (MAX_PKT - 1) ++ [0]
  written ++ old.drop written.length

/-- The frame built by one pass of the loop in `Sender()`; `old` is the
indeterminate content of the local `frame f`.  `snprintf` always writes the
terminator, so `calculate_crc(f.info.data)` is the checksum of the bytes before
it. -/
def make_frame (old : List Nat) (i : Nat) : frame :=
  let data := snprintf_data old i
  { kind := frame_kind.DATA, seq := i, ack := 0, info := { data := data },
    crc := calculate_crc (data.takeWhile (fun b => b != 0)) }

structure Sender where
  buffer : List frame
  resend_queue : List frame
  base : Nat
  next_seq_num : Nat
deriving DecidableEq, Repr

/-- `Sender()`: the backlog of ten frames.  `uninit i` is the content of the
local `frame f` before `snprintf` in pass `i`. -/
def Sender.new (uninit : Nat → List Nat) : Sender :=
  { buffer := (List.range 10).map (fun i => make_frame (uninit i) i),
    resend_queue := [], base := 0, next_seq_num := 0 }

/-- `addToResendQueue(f)`. -/
def Sender.addToResendQueue (s : Sender) (f : frame) : Sender :=
  { s with resend_queue := s.resend_queue ++ [f] }

/-- `getFromResendQueue(f)`: the front frame and the sender without it, or
`none` where the source returns `false`. -/
def Sender.getFromResendQueue (s : Sender) : Option (frame × Sender) :=
  match s.resend_queue with
  | [] => none
  | f :: rest => some (f, { s with resend_queue := rest })

/-- `isResendQueueEmpty()`. -/
def Sender.isResendQueueEmpty (s : Sender) : Bool := s.resend_queue.isEmpty

/-- The condition of the inner `while` of `send_frames`. -/
def Sender.window_open (s : Sender) : Bool :=
  decide (s.next_seq_num < u32 (s.base + WINDOW_SIZE)) && decide (s.next_seq_num < s.buffer.length)

/-- The body of the inner `while` of `send_frames` (lines 123-126). -/
def Sender.send_next (s : Sender) : Sender × List Event :=
  match s.buffer[s.next_seq_num]? with
  | none => (s, [])
  | some f =>
    ({ s.addToResendQueue f with next_seq_num := u32 (s.next_seq_num + 1) },
     [Event.sending f.seq f.crc])

/-- The inner `while` of `send_frames` run to its exit, with a bound on the
number of passes (the unsent part of the backlog always suffices). -/
def Sender.fill_loop : Nat → Sender → Sender × List Event
  | 0, s => (s, [])
  | n + 1, s =>
    if s.window_open then
      let r := Sender.fill_loop n s.send_next.1
      (r.1, s.send_next.2 ++ r.2)
    else (s, [])

/-- Lines 122-127 of `send_frames`. -/
def Sender.fill_window (s : Sender) : Sender × List Event :=
  Sender.fill_loop (s.buffer.length - s.next_seq_num) s

/-- Lines 133-141 of `send_frames`: the reaction to the frame `f` obtained
from the resend queue. -/
def Sender.respond (s : Sender) (f : frame) : Sender × List Event :=
  if f.ack = s.base % (MAX_SEQ + 1) then
    ({ s with base := (f.ack + 1) % (MAX_SEQ + 1) }, [Event.ack_received f.seq])
  else
    (s.addToResendQueue f, [Event.timeout f.seq, Event.retransmitting f.seq])

/-! ## The two threads -/

/-- The simulation: both actors, the frame held by `send_frames` between
`getFromResendQueue` and the test of its `ack` (while the thread sleeps), and
the console output so far. -/
structure Sim where
  sender : Sender
  held : Option frame
  receiver : Receiver
  output : List Event
deriving DecidableEq, Repr

inductive Actor where
  | sender
  | receiver
deriving DecidableEq, Repr

/-- One atomic step of `send_frames`: the reaction to the held frame if there
is one; otherwise one pass of the fill loop while the window is open;
otherwise `getFromResendQueue`. -/
def Sim.send_frames_step (σ : Sim) : Sim :=
  match σ.held with
  | some f =>
    let r := σ.sender.respond f
    { σ with sender := r.1, held := none, output := σ.output ++ r.2 }
  | none =>
    if σ.sender.window_open then
      let r := σ.sender.send_next
      { σ with sender := r.1, output := σ.output ++ r.2 }
    else
      match σ.sender.getFromResendQueue with
      | none => σ
      | some (f, s) => { σ with sender := s, held := some f }

/-- One pass of the loop of `receive_frames`, taking the front of the
sender's resend queue when it is not empty. -/
def Sim.receive_frames_step (σ : Sim) : Option Sim :=
  match (if σ.sender.isResendQueueEmpty then none else σ.sender.getFromResendQueue) with
  | none =>
    match σ.receiver.iteration none with
    | none => none
    | some (r, out) => some { σ with receiver := r, output := σ.output ++ out }
  | some (f, s) =>
    match σ.receiver.iteration (some f) with
    | none => none
    | some (r, out) => some { σ with sender := s, receiver := r, output := σ.output ++ out }

def Sim.step (σ : Sim) : Actor → Option Sim
  | Actor.sender => some σ.send_frames_step
  | Actor.receiver => σ.receive_frames_step

/-- The state after the steps of a schedule, in order. -/
def Sim.run (σ : Sim) : List Actor → Option Sim
  | [] => some σ
  | a :: rest =>
    match σ.step a with
    | none => none
    | some σ1 => Sim.run σ1 rest

/-- The corruption loop of `main`: each pair holds the two `rand()` results
of one pass (frame choice, byte choice). -/
def main_corrupt (buffer : List frame) : List (Nat × Nat) → List frame
  | [] => buffer
  | (r1, r2) :: rest =>
    let corrupt_frame_index := r1 % buffer.length
    main_corrupt (List.modify (fun f => corrupt_frame f r2) corrupt_frame_index buffer) rest

/-- The state in which `main` starts the two threads. -/
def Sim.init (uninit : Nat → List Nat) (rands : List (Nat × Nat)) : Sim :=
  let s := Sender.new uninit
  { sender := { s with buffer := main_corrupt s.buffer rands },
    held := none, receiver := Receiver.new, output := [] }

/-! ## Sample inputs -/

/-- The `i`-th frame of the backlog when the indeterminate bytes are all zero. -/
def sample_frame (i : Nat) : frame := make_frame (List.replicate MAX_PKT 0) i

/-- Frame 0, a retransmitted copy of it, then frames 1 to 7. -/
def dup_arrivals : List frame := [0, 0, 1, 2, 3, 4, 5, 6, 7].map sample_frame

/-- Arrivals out of order, with a duplicate, a corrupted frame and an idle
pass. -/
def mixed_arrivals : List (Option frame) :=
  [some (sample_frame 2), some (sample_frame 0), none, some (sample_frame 2),
   some (corrupt_frame (sample_frame 1) 0), some (sample_frame 1), some (sample_frame 9)]

/-- Backlog frame 1 after `corrupt_frame` chose byte 0. -/
def corrupted_sample : frame := corrupt_frame (sample_frame 1) 0

/-- A receiver waiting for frame 1 while frame 2 sits in the buffer. -/
def waiting_receiver : Receiver :=
  { buffer := [(2, sample_frame 2)], ack_queue := [], expected_seq := 1 }

/-- The simulation started on a backlog with zeroed padding and no
corruption. -/
def clean_init : Sim := Sim.init (fun _ => List.replicate MAX_PKT 0) []

/-- The concrete scenario: the backlog of ten frames, frame index 3 corrupted
once, at byte 0; `uninit` is the indeterminate content of the frames. -/
def scenario_init (uninit : Nat → List Nat) : Sim := Sim.init uninit [(3, 0)]

/-- The scenario with zeroed padding. -/
def scenario_zero : Sim := scenario_init (fun _ => List.replicate MAX_PKT 0)

/-- Ten steps of the sender alone: four frames sent, frame 0 taken and
"acknowledged", frame 4 sent, frame 1 taken and retransmitted, frame 2 taken. -/
def sender_only_schedule : List Actor := List.replicate 10 Actor.sender

/-- The sender sends frames 0 to 3, takes frame 0 and slides the window, sends
frame 4; the receiver takes frames 1 and 2; the sender takes frame 3 and
retransmits it; the receiver takes frame 4 and the retransmitted frame 3. -/
def retransmit_schedule : List Actor :=
  List.replicate 7 Actor.sender ++ [Actor.receiver, Actor.receiver, Actor.sender, Actor.sender,
    Actor.receiver, Actor.receiver]

/-- The state after `sender_only_schedule` on the uncorrupted backlog. -/
def held_state : Sim := (clean_init.run sender_only_schedule).getD clean_init

/-- The state after `retransmit_schedule` in the scenario. -/
def rejected_state : Sim := (scenario_zero.run retransmit_schedule).getD scenario_zero

/-- The sender of the uncorrupted simulation after its first fill of the
window: frames 0 to 3 are in the resend queue. -/
def filled_sender : Sender := clean_init.sender.fill_window.1

/-- The same sender after `getFromResendQueue` took frame 0. -/
def dequeued_sender : Sender :=
  { filled_sender with resend_queue := filled_sender.resend_queue.tail }

/-- A buffer holding an entry under each of the keys 0 to 7 and one under
key 9. -/
def crowded_buffer : Buffer :=
  (9, sample_frame 9) :: (List.range 8).map (fun i => (i, sample_frame i))

/-- The ASCII string "123456789", the usual check input of a CRC. -/
def check_string : List Nat := [49, 50, 51, 52, 53, 54, 55, 56, 57]

/-! ## The standard CRC-32, for comparison -/

/-- One register step of the standard (reflected) CRC-32: shift right, and
XOR the reflected polynomial `0xEDB88320` in when the bit shifted out is 1. -/
def standard_crc32_bit (crc : Nat) : Nat :=
  if crc &&& 1 ≠ 0 then (crc >>> 1) ^^^ 0xEDB88320 else crc >>> 1

/-- The standard CRC-32 of a byte string as the specification words it:
reflected polynomial `0xEDB88320`, initial value `0xFFFFFFFF`, each byte XORed
into the low end of the register and followed by eight register steps, final
complement. -/
def standard_crc32 (data : List Nat) : Nat :=
  (data.foldl (fun crc byte => standard_crc32_bit^[8] (crc ^^^ (byte % 256))) 0xFFFFFFFF) ^^^
    0xFFFFFFFF

/-! ## Invariant of the simulation -/

/-- What holds in every state reached over the backlog `B`: the backlog is
never modified, every frame in flight is a copy of a backlog frame, the window
state is one of those listed, a frame is held only with a closed window, and
every frame the receiver accepted is a backlog frame whose checksum matches. -/
def Sim.inv (B : List frame) (σ : Sim) : Prop :=
  σ.sender.buffer = B ∧
  (∀ f ∈ σ.sender.resend_queue, f ∈ B) ∧
  (∀ f, σ.held = some f → f ∈ B) ∧
  ((σ.sender.base = 0 ∧ σ.sender.next_seq_num ≤ 4 ∧
      (σ.held ≠ none → σ.sender.next_seq_num = 4)) ∨
   (σ.sender.base = 1 ∧ 4 ≤ σ.sender.next_seq_num ∧ σ.sender.next_seq_num ≤ 5 ∧
      (σ.held ≠ none → σ.sender.next_seq_num = 5))) ∧
  (∀ s, Event.received s ∈ σ.output → ∃ f ∈ B, f.seq = s ∧ frame_crc f = some f.crc)

/-! # Lemmas and properties -/

/-! ## The reorder buffer as a map -/

theorem Buffer.find_erase_self (b : Buffer) (k : Nat) : (b.erase k).find k = none := by
  induction b with
  | nil => rfl
  | cons e rest ih =>
    obtain ⟨k', g⟩ := e
    by_cases h : k' = k
    · simpa [Buffer.erase, List.filter_cons, h] using ih
    · simpa [Buffer.erase, List.filter_cons, h, Buffer.find] using ih

theorem Buffer.find_erase_ne (b : Buffer) (k j : Nat) (h : j ≠ k) :
    (b.erase k).find j = b.find j := by
  induction b with
  | nil => rfl
  | cons e rest ih =>
    obtain ⟨k', g⟩ := e
    by_cases hk : k' = k
    · subst hk
      have hj : ¬ k' = j := fun hj => h hj.symm
      simpa [Buffer.erase, List.filter_cons, Buffer.find, hj] using ih
    · by_cases hj : k' = j
      · subst hj
        simp [Buffer.erase, List.filter_cons, hk, Buffer.find]
      · simpa [Buffer.erase, List.filter_cons, hk, Buffer.find, hj] using ih

theorem Buffer.erase_length_lt (b : Buffer) (k : Nat) (f : frame) (h : b.find k = some f) :
    (b.erase k).length < b.length := by
  induction b with
  | nil => simp [Buffer.find] at h
  | cons e rest ih =>
    obtain ⟨k', g⟩ := e
    by_cases hk : k' = k
    · have := List.length_filter_le (fun e : Nat × frame => e.1 != k) rest
      simp [Buffer.erase, List.filter_cons, hk]
      omega
    · simp only [Buffer.find, hk, if_false] at h
      have := ih h
      simp [Buffer.erase, List.filter_cons, hk] at this ⊢
      omega

theorem Buffer.find_assign_self (b : Buffer) (k : Nat) (f : frame) :
    (b.assign k f).find k = some f := by
  induction b with
  | nil => simp [Buffer.assign, Buffer.find]
  | cons e rest ih =>
    obtain ⟨k', g⟩ := e
    by_cases hk : k' = k
    · simp [Buffer.assign, Buffer.find, hk]
    · simpa [Buffer.assign, Buffer.find, hk] using ih

theorem Buffer.find_assign_ne (b : Buffer) (k j : Nat) (f : frame) (h : j ≠ k) :
    (b.assign k f).find j = b.find j := by
  induction b with
  | nil =>
    have : ¬ k = j := fun e => h e.symm
    simp [Buffer.assign, Buffer.find, this]
  | cons e rest ih =>
    obtain ⟨k', g⟩ := e
    by_cases hk : k' = k
    · have hj : ¬ k' = j := fun hj => h (hj ▸ hk)
      have hj2 : ¬ k = j := fun e => h e.symm
      simp [Buffer.assign, Buffer.find, hk, hj, hj2]
    · by_cases hj : k' = j
      · subst hj
        simp [Buffer.assign, Buffer.find, hk]
      · simpa [Buffer.assign, Buffer.find, hk, hj] using ih

theorem Buffer.assign_length_le (b : Buffer) (k : Nat) (f : frame) :
    (b.assign k f).length ≤ b.length + 1 := by
  induction b with
  | nil => simp [Buffer.assign]
  | cons e rest ih =>
    obtain ⟨k', g⟩ := e
    by_cases hk : k' = k
    · simp [Buffer.assign, hk]
    · simpa [Buffer.assign, hk] using ih

theorem Buffer.assign_assign (b : Buffer) (k : Nat) (f : frame) :
    (b.assign k f).assign k f = b.assign k f := by
  induction b with
  | nil => simp [Buffer.assign]
  | cons e rest ih =>
    obtain ⟨k', g⟩ := e
    by_cases hk : k' = k
    · simp [Buffer.assign, hk]
    · simpa [Buffer.assign, hk] using ih

/-! ## `deliver_in_order` -/

theorem deliver_loop_none (n : Nat) (b : Buffer) (e : Nat) (h : b.find e = none) :
    deliver_loop n b e = (b, e, []) := by
  cases n with
  | zero => rfl
  | succ n => simp [deliver_loop, h]

theorem deliver_loop_some (n : Nat) (b : Buffer) (e : Nat) (f : frame) (h : b.find e = some f) :
    deliver_loop (n + 1) b e =
      ((deliver_loop n (b.erase e) ((e + 1) % (MAX_SEQ + 1))).1,
       (deliver_loop n (b.erase e) ((e + 1) % (MAX_SEQ + 1))).2.1,
       Event.delivering_packet f.seq ::
         (deliver_loop n (b.erase e) ((e + 1) % (MAX_SEQ + 1))).2.2) := by
  simp [deliver_loop, h]

/-- The bound on the passes is never the reason the loop stops: on exit the
buffer has no entry under `expected_seq`. -/
theorem deliver_loop_exit (n : Nat) : ∀ (b : Buffer) (e : Nat), b.length ≤ n →
    (deliver_loop n b e).1.find (deliver_loop n b e).2.1 = none := by
  induction n with
  | zero =>
    intro b e h
    have : b = [] := List.length_eq_zero.mp (Nat.le_zero.mp h)
    subst this
    rfl
  | succ n ih =>
    intro b e h
    cases hf : b.find e with
    | none => rw [deliver_loop_none _ _ _ hf]; exact hf
    | some f =>
      rw [deliver_loop_some _ _ _ _ hf]
      have := Buffer.erase_length_lt b e f hf
      exact ih _ _ (by omega)

theorem deliver_in_order_exit (b : Buffer) (e : Nat) :
    (deliver_in_order b e).1.find (deliver_in_order b e).2.1 = none :=
  deliver_loop_exit _ b e (Nat.le_refl _)

/-- Entries that survive the flush were in the buffer before it. -/
theorem deliver_loop_find (n : Nat) : ∀ (b : Buffer) (e k : Nat) (g : frame),
    (deliver_loop n b e).1.find k = some g → b.find k = some g := by
  induction n with
  | zero => intro b e k g h; exact h
  | succ n ih =>
    intro b e k g h
    cases hf : b.find e with
    | none => rw [deliver_loop_none _ _ _ hf] at h; exact h
    | some f =>
      rw [deliver_loop_some _ _ _ _ hf] at h
      have h1 := ih _ _ _ _ h
      by_cases hk : k = e
      · subst hk; rw [Buffer.find_erase_self] at h1; cases h1
      · rwa [Buffer.find_erase_ne _ _ _ hk] at h1

/-- Each delivery of the flush consumes an entry of the buffer. -/
theorem deliver_loop_length (n : Nat) : ∀ (b : Buffer) (e : Nat),
    (deliver_loop n b e).2.2.length + (deliver_loop n b e).1.length ≤ b.length := by
  induction n with
  | zero => intro b e; simp [deliver_loop]
  | succ n ih =>
    intro b e
    cases hf : b.find e with
    | none => rw [deliver_loop_none _ _ _ hf]; simp
    | some f =>
      rw [deliver_loop_some _ _ _ _ hf]
      have h1 := ih (b.erase e) ((e + 1) % (MAX_SEQ + 1))
      have h2 := Buffer.erase_length_lt b e f hf
      simp only [List.length_cons]
      omega

theorem Buffer.find_mem (b : Buffer) (k : Nat) (g : frame) (h : b.find k = some g) :
    (k, g) ∈ b := by
  induction b with
  | nil => simp [Buffer.find] at h
  | cons e rest ih =>
    obtain ⟨k', g'⟩ := e
    by_cases hk : k' = k
    · subst hk
      simp only [Buffer.find, if_true, Option.some.injEq] at h
      subst h
      exact List.mem_cons_self _ _
    · simp only [Buffer.find, hk, if_false] at h
      exact List.mem_cons_of_mem _ (ih h)

theorem Buffer.mem_erase (b : Buffer) (k : Nat) (p : Nat × frame) (h : p ∈ b.erase k) :
    p ∈ b :=
  (List.mem_filter.mp h).1

theorem Buffer.mem_assign (b : Buffer) (k : Nat) (f : frame) (p : Nat × frame)
    (h : p ∈ b.assign k f) : p ∈ b ∨ p = (k, f) := by
  induction b with
  | nil => right; simpa [Buffer.assign] using h
  | cons e rest ih =>
    obtain ⟨k', g'⟩ := e
    by_cases hk : k' = k
    · subst hk
      simp only [Buffer.assign, if_true, List.mem_cons] at h
      rcases h with h | h
      · right; exact h
      · left; exact List.mem_cons_of_mem _ h
    · simp only [Buffer.assign, hk, if_false, List.mem_cons] at h
      rcases h with h | h
      · left; rw [h]; exact List.mem_cons_self _ _
      · rcases ih h with h1 | h1
        · left; exact List.mem_cons_of_mem _ h1
        · right; exact h1

theorem Buffer.keyed_erase (b : Buffer) (k : Nat) (h : b.keyed) : (b.erase k).keyed :=
  fun p hp => h p (Buffer.mem_erase b k p hp)

theorem deliver_loop_mem (n : Nat) : ∀ (b : Buffer) (e : Nat) (p : Nat × frame),
    p ∈ (deliver_loop n b e).1 → p ∈ b := by
  induction n with
  | zero => intro b e p h; exact h
  | succ n ih =>
    intro b e p h
    cases hf : b.find e with
    | none => rw [deliver_loop_none _ _ _ hf] at h; exact h
    | some f =>
      rw [deliver_loop_some _ _ _ _ hf] at h
      exact Buffer.mem_erase b e p (ih _ _ _ h)

/-- The flush hands over consecutive sequence numbers, starting at
`expected_seq`, and leaves `expected_seq` just after the last of them. -/
theorem deliver_loop_trace (n : Nat) : ∀ (b : Buffer) (m : Nat), b.keyed →
    ∃ j, (deliver_loop n b (m % (MAX_SEQ + 1))).2.2 =
          (List.range' m j).map (fun i => Event.delivering_packet (i % (MAX_SEQ + 1))) ∧
         (deliver_loop n b (m % (MAX_SEQ + 1))).2.1 = (m + j) % (MAX_SEQ + 1) := by
  induction n with
  | zero => intro b m _; exact ⟨0, rfl, rfl⟩
  | succ n ih =>
    intro b m hb
    cases hf : b.find (m % (MAX_SEQ + 1)) with
    | none => rw [deliver_loop_none _ _ _ hf]; exact ⟨0, rfl, rfl⟩
    | some f =>
      rw [deliver_loop_some _ _ _ _ hf]
      have hseq : f.seq = m % (MAX_SEQ + 1) := (hb _ (Buffer.find_mem _ _ _ hf)).1
      have hm : (m % (MAX_SEQ + 1) + 1) % (MAX_SEQ + 1) = (m + 1) % (MAX_SEQ + 1) := by
        simp [MAX_SEQ]
      rw [hm]
      obtain ⟨j, h1, h2⟩ := ih (b.erase (m % (MAX_SEQ + 1))) (m + 1)
        (Buffer.keyed_erase _ _ hb)
      refine ⟨j + 1, ?_, ?_⟩
      · simp only [h1, hseq, List.range'_succ, List.map_cons]
      · simp only [h2]; congr 1; omega

/-! ## The delivery trace -/

theorem delivered_append (a b : List Event) : delivered (a ++ b) = delivered a ++ delivered b := by
  induction a with
  | nil => rfl
  | cons e rest ih => cases e <;> simp [delivered, ih]

theorem delivered_send_acks (q : List Nat) : delivered (Receiver.send_acks q) = [] := by
  induction q with
  | nil => rfl
  | cons s rest ih =>
    simp only [Receiver.send_acks, List.map_cons] at ih ⊢
    split <;> simpa [delivered] using ih

theorem delivered_packets (l : List Nat) (g : Nat → Nat) :
    delivered (l.map (fun i => Event.delivering_packet (g i))) = l.map g := by
  induction l with
  | nil => rfl
  | cons s rest ih => simp [delivered, ih]

/-! ## One pass of the receiver loop, case by case -/

theorem deliver_in_order_none (b : Buffer) (e : Nat) (h : b.find e = none) :
    deliver_in_order b e = (b, e, []) :=
  deliver_loop_none _ b e h

theorem Receiver.iteration_idle (r : Receiver) (h : r.buffer.find r.expected_seq = none) :
    r.iteration none =
      some ({ buffer := r.buffer, ack_queue := [], expected_seq := r.expected_seq },
            Receiver.send_acks r.ack_queue) := by
  simp [Receiver.iteration, deliver_in_order_none _ _ h]

theorem Receiver.iteration_reject (r : Receiver) (f : frame) (c : Nat)
    (h : r.buffer.find r.expected_seq = none) (hc : frame_crc f = some c) (hne : c ≠ f.crc) :
    r.iteration (some f) =
      some ({ buffer := r.buffer, ack_queue := [], expected_seq := r.expected_seq },
            [Event.error_in_frame f.seq c] ++ Receiver.send_acks (r.ack_queue ++ [NAK_MARK])) := by
  simp [Receiver.iteration, Receiver.on_frame, hc, hne, deliver_in_order_none _ _ h]

theorem Receiver.iteration_store (r : Receiver) (f : frame)
    (h : r.buffer.find r.expected_seq = none) (hc : frame_crc f = some f.crc)
    (hne : f.seq ≠ r.expected_seq) :
    r.iteration (some f) =
      some ({ buffer := r.buffer.assign f.seq f, ack_queue := [],
              expected_seq := r.expected_seq },
            [Event.received f.seq, Event.out_of_order f.seq] ++
              Receiver.send_acks (r.ack_queue ++ [f.seq])) := by
  have h2 : (r.buffer.assign f.seq f).find r.expected_seq = none := by
    rw [Buffer.find_assign_ne _ _ _ _ (Ne.symm hne)]; exact h
  simp [Receiver.iteration, Receiver.on_frame, hc, hne, deliver_in_order_none _ _ h2]

theorem Receiver.iteration_accept (r : Receiver) (f : frame)
    (h : r.buffer.find r.expected_seq = none) (hc : frame_crc f = some f.crc)
    (heq : f.seq = r.expected_seq) :
    r.iteration (some f) =
      some ({ buffer := (deliver_in_order r.buffer ((r.expected_seq + 1) % (MAX_SEQ + 1))).1,
              ack_queue := [],
              expected_seq :=
                (deliver_in_order r.buffer ((r.expected_seq + 1) % (MAX_SEQ + 1))).2.1 },
            [Event.received f.seq, Event.delivering_frame f.seq] ++
              Receiver.send_acks (r.ack_queue ++ [f.seq]) ++
              (deliver_in_order r.buffer ((r.expected_seq + 1) % (MAX_SEQ + 1))).2.2) := by
  simp [Receiver.iteration, Receiver.on_frame, hc, heq, deliver_in_order_none _ _ h]

/-- Every delivery of the flush is that of an entry of the buffer. -/
theorem deliver_loop_src (n : Nat) : ∀ (b : Buffer) (e : Nat),
    ∀ ev ∈ (deliver_loop n b e).2.2, ∃ p ∈ b, ev = Event.delivering_packet p.2.seq := by
  induction n with
  | zero => intro b e ev h; simp [deliver_loop] at h
  | succ n ih =>
    intro b e ev h
    cases hf : b.find e with
    | none => rw [deliver_loop_none _ _ _ hf] at h; simp at h
    | some f =>
      rw [deliver_loop_some _ _ _ _ hf] at h
      rcases List.mem_cons.mp h with h | h
      · exact ⟨(e, f), Buffer.find_mem _ _ _ hf, h⟩
      · obtain ⟨p, hp, hev⟩ := ih _ _ ev h
        exact ⟨p, Buffer.mem_erase _ _ _ hp, hev⟩

theorem mem_delivered (out : List Event) (s : Nat) (h : s ∈ delivered out) :
    Event.delivering_frame s ∈ out ∨ Event.delivering_packet s ∈ out := by
  induction out with
  | nil => simp [delivered] at h
  | cons e rest ih =>
    cases e <;> simp only [delivered, List.mem_cons] at h <;>
      first
      | (rcases h with h | h
         · subst h; simp
         · rcases ih h with h1 | h1
           · left; exact List.mem_cons_of_mem _ h1
           · right; exact List.mem_cons_of_mem _ h1)
      | (rcases ih h with h1 | h1
         · left; exact List.mem_cons_of_mem _ h1
         · right; exact List.mem_cons_of_mem _ h1)

theorem frame_crc_isSome (f : frame) (h : 0 ∈ f.info.data) : ∃ c, frame_crc f = some c := by
  simp [frame_crc, c_str, h]

/-- What one pass of the receiver loop does to a state that satisfies the
buffer invariant. -/
theorem Receiver.iteration_spec (r : Receiver) (a : Option frame) (m : Nat)
    (hinv : r.buffer_invariant) (he : r.expected_seq = m % (MAX_SEQ + 1))
    (ht : ∀ f, a = some f → 0 ∈ f.info.data) :
    ∃ r1 out j, r.iteration a = some (r1, out) ∧ r1.buffer_invariant ∧ r1.ack_queue = [] ∧
      r1.expected_seq = (m + j) % (MAX_SEQ + 1) ∧
      delivered out = (List.range' m j).map (fun i => i % (MAX_SEQ + 1)) ∧
      j + r1.buffer.length ≤ r.buffer.length + (frames_of [a]).length ∧
      (∀ p ∈ r1.buffer, p ∈ r.buffer ∨ (a = some p.2 ∧ p.2.seq ≠ r.expected_seq)) ∧
      (∀ s ∈ delivered out, (∃ g, (s, g) ∈ r.buffer ∧ g.seq = s) ∨
        ∃ f, a = some f ∧ f.seq = s) := by
  obtain ⟨hfind, hkeyed⟩ := hinv
  cases a with
  | none =>
    refine ⟨_, _, 0, Receiver.iteration_idle r hfind, ⟨hfind, hkeyed⟩, rfl, by simpa using he,
      by simp [delivered_send_acks], by simp, fun p hp => Or.inl hp, ?_⟩
    intro s hs; simp [delivered_send_acks] at hs
  | some f =>
    obtain ⟨c, hc⟩ := frame_crc_isSome f (ht f rfl)
    by_cases hne : c = f.crc
    · subst hne
      by_cases hseq : f.seq = r.expected_seq
      · -- accepted in order, then the flush
        have hm : (r.expected_seq + 1) % (MAX_SEQ + 1) = (m + 1) % (MAX_SEQ + 1) := by
          rw [he]; simp [MAX_SEQ]
        obtain ⟨j, ht1, ht2⟩ := deliver_loop_trace r.buffer.length r.buffer (m + 1) hkeyed
        have hit := Receiver.iteration_accept r f hfind hc hseq
        rw [hm] at hit
        have hdel : ∀ fl : List Event,
            delivered ([Event.received f.seq, Event.delivering_frame f.seq] ++
              Receiver.send_acks (r.ack_queue ++ [f.seq]) ++ fl) = f.seq :: delivered fl := by
          intro fl
          rw [delivered_append, delivered_append, delivered_send_acks]
          rfl
        refine ⟨_, _, j + 1, hit, ⟨?_, ?_⟩, rfl, ?_, ?_, ?_, ?_, ?_⟩
        · exact deliver_in_order_exit _ _
        · exact fun p hp => hkeyed p (deliver_loop_mem _ _ _ p hp)
        · show (deliver_loop _ _ _).2.1 = _
          rw [ht2]; congr 1; omega
        · rw [hdel, List.range'_succ, List.map_cons, hseq, he]
          show _ :: delivered (deliver_loop _ _ _).2.2 = _
          rw [ht1, delivered_packets]
        · have := deliver_loop_length r.buffer.length r.buffer ((m + 1) % (MAX_SEQ + 1))
          rw [ht1] at this
          simp only [List.length_map, List.length_range'] at this
          simp only [deliver_in_order, frames_of, List.filterMap_cons, id, List.filterMap_nil,
            List.length_singleton]
          omega
        · exact fun p hp => Or.inl (deliver_loop_mem _ _ _ p hp)
        · intro s hs
          rw [hdel] at hs
          rcases List.mem_cons.mp hs with hs | hs
          · exact Or.inr ⟨f, rfl, hs.symm⟩
          · rcases mem_delivered _ _ hs with h1 | h1
            · obtain ⟨p, _, hev⟩ := deliver_loop_src _ _ _ _ h1
              cases hev
            · obtain ⟨p, hp, hev⟩ := deliver_loop_src _ _ _ _ h1
              injection hev with hev
              refine Or.inl ⟨p.2, ?_, hev.symm⟩
              have := (hkeyed p hp).1
              rw [hev, this]
              exact hp
      · -- stored out of order
        refine ⟨_, _, 0, Receiver.iteration_store r f hfind hc hseq, ⟨?_, ?_⟩, rfl,
          by simpa using he, by simp [delivered_append, delivered_send_acks, delivered], ?_, ?_, ?_⟩
        · show (r.buffer.assign f.seq f).find r.expected_seq = none
          rw [Buffer.find_assign_ne _ _ _ _ (Ne.symm hseq)]; exact hfind
        · intro p hp
          rcases Buffer.mem_assign _ _ _ _ hp with h1 | h1
          · exact hkeyed p h1
          · subst h1; exact ⟨rfl, hc⟩
        · have := Buffer.assign_length_le r.buffer f.seq f
          simp only [frames_of, List.filterMap_cons, id, List.filterMap_nil,
            List.length_singleton]
          omega
        · intro p hp
          rcases Buffer.mem_assign _ _ _ _ hp with h1 | h1
          · exact Or.inl h1
          · subst h1; exact Or.inr ⟨rfl, hseq⟩
        · intro s hs
          simp [delivered_append, delivered_send_acks, delivered] at hs
    · -- rejected
      refine ⟨_, _, 0, Receiver.iteration_reject r f c hfind hc hne, ⟨hfind, hkeyed⟩, rfl,
        by simpa using he, by simp [delivered_append, delivered_send_acks, delivered], by simp,
        fun p hp => Or.inl hp, ?_⟩
      intro s hs
      simp [delivered_append, delivered_send_acks, delivered] at hs

theorem mem_frames_of (arrivals : List (Option frame)) (f : frame) :
    f ∈ frames_of arrivals ↔ some f ∈ arrivals := by
  simp [frames_of, List.mem_filterMap]

theorem frames_of_cons (a : Option frame) (rest : List (Option frame)) :
    frames_of (a :: rest) = frames_of [a] ++ frames_of rest := by
  cases a <;> simp [frames_of]

theorem frames_of_map_some (l : List frame) : frames_of (l.map some) = l := by
  induction l with
  | nil => rfl
  | cons f rest ih => simp [frames_of]

theorem terminated_cons (a : Option frame) (rest : List (Option frame))
    (h : terminated (a :: rest)) :
    (∀ f, a = some f → 0 ∈ f.info.data) ∧ terminated rest :=
  ⟨h a (List.mem_cons_self _ _), fun b hb => h b (List.mem_cons_of_mem _ hb)⟩

/-- What a run of the receiver loop does to a state that satisfies the buffer
invariant: the run is defined, the invariant is kept, the deliveries are
consecutive from `expected_seq`, and every delivery is that of an arrival or of
an entry of the initial buffer. -/
theorem Receiver.receive_frames_spec : ∀ (arrivals : List (Option frame)) (r : Receiver)
    (m : Nat), r.buffer_invariant → r.expected_seq = m % (MAX_SEQ + 1) → terminated arrivals →
    ∃ r1 out n, r.receive_frames arrivals = some (r1, out) ∧ r1.buffer_invariant ∧
      r1.expected_seq = (m + n) % (MAX_SEQ + 1) ∧
      delivered out = (List.range' m n).map (fun i => i % (MAX_SEQ + 1)) ∧
      n + r1.buffer.length ≤ r.buffer.length + (frames_of arrivals).length ∧
      (∀ p ∈ r1.buffer, p ∈ r.buffer ∨ p.2 ∈ frames_of arrivals) ∧
      (∀ s ∈ delivered out, (∃ g, (s, g) ∈ r.buffer ∧ g.seq = s) ∨
        ∃ f ∈ frames_of arrivals, f.seq = s) := by
  intro arrivals
  induction arrivals with
  | nil =>
    intro r m hinv he _
    exact ⟨r, [], 0, rfl, hinv, by simpa using he, rfl, by simp [frames_of],
      fun p hp => Or.inl hp, fun s hs => by simp [delivered] at hs⟩
  | cons a rest ih =>
    intro r m hinv he ht
    obtain ⟨hta, htr⟩ := terminated_cons a rest ht
    obtain ⟨r1, out1, j, hit, hinv1, _, he1, hd1, hl1, hb1, hs1⟩ :=
      Receiver.iteration_spec r a m hinv he hta
    obtain ⟨r2, out2, n, hrun, hinv2, he2, hd2, hl2, hb2, hs2⟩ := ih r1 (m + j) hinv1 he1 htr
    have ha : ∀ g, a = some g → g ∈ frames_of (a :: rest) := by
      intro g hg; rw [mem_frames_of, hg]; exact List.mem_cons_self _ _
    have hr : ∀ g, g ∈ frames_of rest → g ∈ frames_of (a :: rest) := by
      intro g hg; rw [mem_frames_of] at hg ⊢; exact List.mem_cons_of_mem _ hg
    refine ⟨r2, out1 ++ out2, j + n, ?_, hinv2, ?_, ?_, ?_, ?_, ?_⟩
    · simp [Receiver.receive_frames, hit, hrun]
    · rw [he2]; congr 1; omega
    · rw [delivered_append, hd1, hd2, ← List.map_append, List.range'_append_1, Nat.add_comm n j]
    · rw [frames_of_cons, List.length_append]; omega
    · intro p hp
      rcases hb2 p hp with h | h
      · rcases hb1 p h with h1 | h1
        · exact Or.inl h1
        · exact Or.inr (ha _ h1.1)
      · exact Or.inr (hr _ h)
    · intro s hs
      rw [delivered_append] at hs
      rcases List.mem_append.mp hs with h | h
      · rcases hs1 s h with h1 | ⟨f, hf, hfs⟩
        · exact Or.inl h1
        · exact Or.inr ⟨f, ha _ hf, hfs⟩
      · rcases hs2 s h with ⟨g, hg, hgs⟩ | ⟨f, hf, hfs⟩
        · rcases hb1 _ hg with h1 | h1
          · exact Or.inl ⟨g, h1, hgs⟩
          · exact Or.inr ⟨g, ha _ h1.1, hgs⟩
        · exact Or.inr ⟨f, hr _ hf, hfs⟩

theorem Receiver.new_invariant : Receiver.new.buffer_invariant :=
  ⟨rfl, fun p hp => by simp [Receiver.new] at hp⟩

/-- A run over `l ++ [a]` is the run over `l` followed by one more pass. -/
theorem Receiver.receive_frames_snoc : ∀ (l : List (Option frame)) (r : Receiver)
    (a : Option frame),
    r.receive_frames (l ++ [a]) =
      match r.receive_frames l with
      | none => none
      | some (r1, out1) =>
        match r1.iteration a with
        | none => none
        | some (r2, out2) => some (r2, out1 ++ out2) := by
  intro l
  induction l with
  | nil =>
    intro r a
    simp only [List.nil_append, Receiver.receive_frames]
    cases r.iteration a with
    | none => rfl
    | some p => simp
  | cons b rest ih =>
    intro r a
    have e1 : (b :: rest) ++ [a] = b :: (rest ++ [a]) := rfl
    rw [e1]
    cases hb : r.iteration b with
    | none => simp [Receiver.receive_frames, hb]
    | some p =>
      obtain ⟨r1, o1⟩ := p
      cases hr : r1.receive_frames rest with
      | none => simp [Receiver.receive_frames, hb, ih, hr]
      | some q =>
        obtain ⟨r2, o2⟩ := q
        cases ha : r2.iteration a with
        | none => simp [Receiver.receive_frames, hb, ih, hr, ha]
        | some q2 => simp [Receiver.receive_frames, hb, ih, hr, ha, List.append_assoc]

/-! ## Properties of the receiver -/

/-- C1. For every finite sequence of arrivals (frames with any sequence
numbers, valid or corrupted, duplicated or reordered, and passes that find the
queue empty), each with a NUL-terminated payload, the receiver loop started
from `expected_seq = 0` and an empty buffer is defined, and the delivered
sequence numbers are exactly `0, 1, 2, ...` taken modulo `MAX_SEQ + 1`: each
one is the previous one plus 1 modulo 8. -/
theorem in_order_delivery (arrivals : List (Option frame)) (h : terminated arrivals) :
    ∃ r out, Receiver.new.receive_frames arrivals = some (r, out) ∧
      delivered out =
        (List.range (delivered out).length).map (fun i => i % (MAX_SEQ + 1)) ∧
      ∀ (i : Nat) (hi : i + 1 < (delivered out).length),
        (delivered out)[i + 1] = ((delivered out)[i] + 1) % (MAX_SEQ + 1) := by
  obtain ⟨r, out, n, hrun, _, _, hd, _⟩ :=
    Receiver.receive_frames_spec arrivals Receiver.new 0 Receiver.new_invariant rfl h
  have hn : (delivered out).length = n := by rw [hd]; simp
  refine ⟨r, out, hrun, ?_, ?_⟩
  · rw [hn, hd, List.range_eq_range']
  · intro i hi
    have key : ∀ (l : List Nat), l = (List.range' 0 n).map (fun i => i % (MAX_SEQ + 1)) →
        ∀ (hi : i + 1 < l.length), l[i + 1] = (l[i] + 1) % (MAX_SEQ + 1) := by
      intro l hl hi
      subst hl
      simp [MAX_SEQ]
    exact key _ hd hi

set_option maxRecDepth 100000 in
/-- C1 at a concrete arrival sequence. -/
theorem in_order_delivery_witness :
    terminated mixed_arrivals ∧
    ∃ r out, Receiver.new.receive_frames mixed_arrivals = some (r, out) ∧
      delivered out =
        (List.range (delivered out).length).map (fun i => i % (MAX_SEQ + 1)) ∧
      ∀ (i : Nat) (hi : i + 1 < (delivered out).length),
        (delivered out)[i + 1] = ((delivered out)[i] + 1) % (MAX_SEQ + 1) :=
  ⟨by decide, in_order_delivery mixed_arrivals (by decide)⟩

theorem terminated_of_valid (arrivals : List frame)
    (h : ∀ f ∈ arrivals, frame_crc f = some f.crc ∧ f.seq < MAX_SEQ + 1) :
    terminated (arrivals.map some) := by
  intro a ha f hf
  subst hf
  obtain ⟨g, hg, hgf⟩ := List.mem_map.mp ha
  injection hgf with hgf
  subst hgf
  have := (h g hg).1
  by_contra h0
  simp [frame_crc, c_str, h0] at this

set_option maxRecDepth 100000 in
/-- C2, counterexample.  Frame 0, a retransmitted copy of frame 0, then frames
1 to 7: all nine are checksum-valid with `seq` below 8, eight of them are
distinct, and the receiver makes nine deliveries; the copy of frame 0 is
delivered a second time when `expected_seq` comes round to 0 again. -/
theorem duplicate_delivered_again :
    (∀ f ∈ dup_arrivals, frame_crc f = some f.crc ∧ f.seq < MAX_SEQ + 1) ∧
    dup_arrivals.dedup.length = 8 ∧
    ∃ r out, Receiver.new.receive_frames (dup_arrivals.map some) = some (r, out) ∧
      delivered out = [0, 1, 2, 3, 4, 5, 6, 7, 0] ∧
      ¬ (delivered out).length ≤ dup_arrivals.dedup.length := by
  refine ⟨by decide, by decide, ?_⟩
  have h : (Receiver.new.receive_frames (dup_arrivals.map some)).map
      (fun p => delivered p.2) = some [0, 1, 2, 3, 4, 5, 6, 7, 0] := by decide
  cases hr : Receiver.new.receive_frames (dup_arrivals.map some) with
  | none => rw [hr] at h; cases h
  | some p =>
    rw [hr] at h
    simp only [Option.map_some', Option.some.injEq] at h
    refine ⟨p.1, p.2, rfl, h, ?_⟩
    rw [h]
    decide

/-- C2, amended.  For every finite sequence of checksum-valid frames with
`seq` in `[0, 8)` the receiver loop is defined; the number of deliveries is at
most the number of arrivals (copies counted), and, as long as no more than 8
deliveries have been made (the sequence numbers have not wrapped round), it is
at most the number of distinct frames of the arrival sequence. -/
theorem deliveries_bounded (arrivals : List frame)
    (h : ∀ f ∈ arrivals, frame_crc f = some f.crc ∧ f.seq < MAX_SEQ + 1) :
    ∃ r out, Receiver.new.receive_frames (arrivals.map some) = some (r, out) ∧
      (delivered out).length ≤ arrivals.length ∧
      ((delivered out).length ≤ MAX_SEQ + 1 →
        (delivered out).length ≤ arrivals.dedup.length) := by
  obtain ⟨r, out, n, hrun, _, _, hd, hl, _, hs⟩ :=
    Receiver.receive_frames_spec (arrivals.map some) Receiver.new 0 Receiver.new_invariant rfl
      (terminated_of_valid arrivals h)
  have hn : (delivered out).length = n := by rw [hd]; simp
  rw [frames_of_map_some] at hl hs
  refine ⟨r, out, hrun, ?_, ?_⟩
  · rw [hn]; simp only [Receiver.new, List.length_nil] at hl; omega
  · intro h8
    rw [hn] at h8 ⊢
    have hsub : Finset.range n ⊆ arrivals.toFinset.image frame.seq := by
      intro s hsn
      have hsn : s < n := Finset.mem_range.mp hsn
      have hmem : s ∈ delivered out := by
        rw [hd]
        refine List.mem_map.mpr ⟨s, ?_, Nat.mod_eq_of_lt (by omega)⟩
        simp [List.mem_range']
        exact hsn
      rcases hs s hmem with ⟨g, hg, _⟩ | ⟨f, hf, hfs⟩
      · simp [Receiver.new] at hg
      · exact Finset.mem_image.mpr ⟨f, List.mem_toFinset.mpr hf, hfs⟩
    calc n = (Finset.range n).card := (Finset.card_range n).symm
      _ ≤ (arrivals.toFinset.image frame.seq).card := Finset.card_le_card hsub
      _ ≤ arrivals.toFinset.card := Finset.card_image_le
      _ = arrivals.dedup.length := List.card_toFinset arrivals

set_option maxRecDepth 100000 in
/-- C2, amended, at the arrival sequence of the counterexample. -/
theorem deliveries_bounded_witness :
    (∀ f ∈ dup_arrivals, frame_crc f = some f.crc ∧ f.seq < MAX_SEQ + 1) ∧
    ∃ r out, Receiver.new.receive_frames (dup_arrivals.map some) = some (r, out) ∧
      (delivered out).length ≤ dup_arrivals.length ∧
      ((delivered out).length ≤ MAX_SEQ + 1 →
        (delivered out).length ≤ dup_arrivals.dedup.length) :=
  ⟨by decide, deliveries_bounded dup_arrivals (by decide)⟩

theorem mem_send_acks (q : List Nat) (ev : Event) (h : ev ∈ Receiver.send_acks q) :
    ev = Event.sending_nak ∨ ∃ s, ev = Event.sending_ack s := by
  obtain ⟨s, _, hs⟩ := List.mem_map.mp h
  split at hs
  · exact Or.inl hs.symm
  · exact Or.inr ⟨s, hs.symm⟩

/-- C7. A frame that fails the checksum comparison is dropped.  In a receiver
state whose buffer has no entry under `expected_seq`, the treatment of a frame
`f` whose recomputed checksum `c` differs from `f.crc` appends exactly the NAK
mark (and no sequence number) to the acknowledgment queue; the whole pass of
the loop leaves the reorder buffer and `expected_seq` unchanged, makes no
delivery, and announces one NAK after the control entries that were already
queued. -/
theorem corrupted_frame_dropped (r : Receiver) (f : frame) (c : Nat)
    (h : r.buffer.find r.expected_seq = none) (hc : frame_crc f = some c) (hne : c ≠ f.crc) :
    r.on_frame f = some ({ r with ack_queue := r.ack_queue ++ [NAK_MARK] },
                         [Event.error_in_frame f.seq c]) ∧
    ∃ r1 out, r.iteration (some f) = some (r1, out) ∧
      r1.buffer = r.buffer ∧ r1.expected_seq = r.expected_seq ∧ delivered out = [] ∧
      out = [Event.error_in_frame f.seq c] ++ Receiver.send_acks r.ack_queue ++
              [Event.sending_nak] ∧
      (∀ s, Event.received s ∉ out ∧ Event.out_of_order s ∉ out) := by
  refine ⟨by simp [Receiver.on_frame, hc, hne], _, _,
    Receiver.iteration_reject r f c h hc hne, rfl, rfl, ?_, ?_, ?_⟩
  · simp [delivered_append, delivered_send_acks, delivered]
  · simp [Receiver.send_acks]
  · intro s
    constructor <;>
    · intro hmem
      rcases List.mem_cons.mp hmem with h1 | h1
      · cases h1
      · rcases mem_send_acks _ _ h1 with h2 | ⟨t, h2⟩ <;> cases h2

set_option maxRecDepth 100000 in
/-- C7 at a concrete input: backlog frame 1 with byte 0 flipped, arriving
while frame 2 waits in the buffer. -/
theorem corrupted_frame_dropped_witness :
    waiting_receiver.buffer.find waiting_receiver.expected_seq = none ∧
    frame_crc corrupted_sample = some 2715550751 ∧
    2715550751 ≠ corrupted_sample.crc ∧
    waiting_receiver.on_frame corrupted_sample =
      some ({ waiting_receiver with ack_queue := waiting_receiver.ack_queue ++ [NAK_MARK] },
            [Event.error_in_frame corrupted_sample.seq 2715550751]) ∧
    ∃ r1 out, waiting_receiver.iteration (some corrupted_sample) = some (r1, out) ∧
      r1.buffer = waiting_receiver.buffer ∧ r1.expected_seq = waiting_receiver.expected_seq ∧
      delivered out = [] ∧
      out = [Event.error_in_frame corrupted_sample.seq 2715550751] ++
              Receiver.send_acks waiting_receiver.ack_queue ++ [Event.sending_nak] ∧
      (∀ s, Event.received s ∉ out ∧ Event.out_of_order s ∉ out) :=
  ⟨by decide, by decide, by decide,
   corrupted_frame_dropped waiting_receiver corrupted_sample 2715550751
     (by decide) (by decide) (by decide)⟩

theorem terminated_append (l : List (Option frame)) (a : Option frame)
    (h : terminated (l ++ [a])) :
    terminated l ∧ ∀ f, a = some f → 0 ∈ f.info.data :=
  ⟨fun b hb => h b (List.mem_append_left _ hb),
   h a (List.mem_append_right _ (List.mem_singleton_self a))⟩

/-- The invariant of the receiver loop, with the history of each buffered
frame: it is an arrival whose `seq` differed from `expected_seq` at the pass
that stored it. -/
theorem Receiver.receive_frames_history (arrivals : List (Option frame)) :
    terminated arrivals →
    ∃ r out, Receiver.new.receive_frames arrivals = some (r, out) ∧
      r.buffer_invariant ∧ r.expected_seq < MAX_SEQ + 1 ∧
      ∀ p ∈ r.buffer, ∃ pre post r0 out0, arrivals = pre ++ some p.2 :: post ∧
        Receiver.new.receive_frames pre = some (r0, out0) ∧ p.2.seq ≠ r0.expected_seq := by
  induction arrivals using List.reverseRecOn with
  | nil =>
    intro _
    exact ⟨Receiver.new, [], rfl, Receiver.new_invariant, by decide,
      fun p hp => by simp [Receiver.new] at hp⟩
  | append_singleton l a ih =>
    intro ht
    obtain ⟨htl, hta⟩ := terminated_append l a ht
    obtain ⟨r, out, hrun, hinv, hlt, hhist⟩ := ih htl
    obtain ⟨r1, out1, j, hit, hinv1, _, he1, _, _, hb1, _⟩ :=
      Receiver.iteration_spec r a r.expected_seq hinv (Nat.mod_eq_of_lt hlt).symm hta
    refine ⟨r1, out ++ out1, ?_, hinv1, ?_, ?_⟩
    · rw [Receiver.receive_frames_snoc, hrun]
      simp only [hit]
    · rw [he1]; exact Nat.mod_lt _ (by decide)
    · intro p hp
      rcases hb1 p hp with h | ⟨h1, h2⟩
      · obtain ⟨pre, post, r0, out0, hsplit, hpre, hseq⟩ := hhist p h
        exact ⟨pre, post ++ [a], r0, out0, by rw [hsplit]; simp, hpre, hseq⟩
      · exact ⟨l, [], r, out, by rw [h1], hrun, h2⟩

/-- C8. Reorder-buffer invariant.  After every complete pass of the receiver
loop, for every sequence of arrivals (with NUL-terminated payloads), the loop
is defined, the buffer has no entry under `expected_seq`, and every entry
stored under a key `k` is a frame `g` with `g.seq = k`, whose `crc` equals the
checksum of its payload, and which was an arrival whose `seq` differed from
`expected_seq` at the pass that stored it. -/
theorem reorder_buffer_invariant (arrivals : List (Option frame)) (h : terminated arrivals) :
    ∃ r out, Receiver.new.receive_frames arrivals = some (r, out) ∧
      r.buffer.find r.expected_seq = none ∧
      ∀ k g, (k, g) ∈ r.buffer →
        g.seq = k ∧ frame_crc g = some g.crc ∧
        ∃ pre post r0 out0, arrivals = pre ++ some g :: post ∧
          Receiver.new.receive_frames pre = some (r0, out0) ∧ g.seq ≠ r0.expected_seq := by
  obtain ⟨r, out, hrun, hinv, _, hhist⟩ := Receiver.receive_frames_history arrivals h
  exact ⟨r, out, hrun, hinv.1, fun k g hkg =>
    ⟨(hinv.2 _ hkg).1, (hinv.2 _ hkg).2, hhist _ hkg⟩⟩

set_option maxRecDepth 100000 in
/-- C8 at a concrete arrival sequence. -/
theorem reorder_buffer_invariant_witness :
    terminated mixed_arrivals ∧
    ∃ r out, Receiver.new.receive_frames mixed_arrivals = some (r, out) ∧
      r.buffer.find r.expected_seq = none ∧
      ∀ k g, (k, g) ∈ r.buffer →
        g.seq = k ∧ frame_crc g = some g.crc ∧
        ∃ pre post r0 out0, mixed_arrivals = pre ++ some g :: post ∧
          Receiver.new.receive_frames pre = some (r0, out0) ∧ g.seq ≠ r0.expected_seq :=
  ⟨by decide, reorder_buffer_invariant mixed_arrivals (by decide)⟩

/-- C9. Idempotent buffering.  In a receiver state that satisfies the buffer
invariant, a checksum-valid frame `f` with `f.seq ≠ expected_seq` processed
twice in a row leaves the receiver in the state reached after processing it
once (same reorder buffer, holding `f` under `f.seq`, same `expected_seq`), and
neither pass delivers anything; so for every subsequent arrival sequence the
final state and the delivery trace after `[f, f]` equal those after `[f]`: the
second copy adds no delivery. -/
theorem idempotent_buffering (r : Receiver) (f : frame) (hinv : r.buffer_invariant)
    (hc : frame_crc f = some f.crc) (hne : f.seq ≠ r.expected_seq) :
    ∃ r1 out1 out2, r.iteration (some f) = some (r1, out1) ∧
      r1.iteration (some f) = some (r1, out2) ∧
      r1.buffer = r.buffer.assign f.seq f ∧ r1.buffer.find f.seq = some f ∧
      r1.expected_seq = r.expected_seq ∧
      delivered out1 = [] ∧ delivered out2 = [] ∧
      ∀ rest : List (Option frame),
        (r.receive_frames (some f :: some f :: rest)).map (fun p => (p.1, delivered p.2)) =
        (r.receive_frames (some f :: rest)).map (fun p => (p.1, delivered p.2)) := by
  have h1 := Receiver.iteration_store r f hinv.1 hc hne
  have hfind : (r.buffer.assign f.seq f).find r.expected_seq = none := by
    rw [Buffer.find_assign_ne _ _ _ _ (Ne.symm hne)]; exact hinv.1
  have h2 := Receiver.iteration_store
    { buffer := r.buffer.assign f.seq f, ack_queue := [], expected_seq := r.expected_seq } f
    hfind hc hne
  simp only [Buffer.assign_assign] at h2
  have hd : ∀ q, delivered ([Event.received f.seq, Event.out_of_order f.seq] ++
      Receiver.send_acks q) = [] := by
    intro q; rw [delivered_append, delivered_send_acks]; rfl
  refine ⟨_, _, _, h1, h2, rfl, Buffer.find_assign_self _ _ _, rfl, hd _, hd _, ?_⟩
  intro rest
  simp only [Receiver.receive_frames, h1, h2]
  cases Receiver.receive_frames
    { buffer := r.buffer.assign f.seq f, ack_queue := [], expected_seq := r.expected_seq }
    rest with
  | none => rfl
  | some q =>
    obtain ⟨r2, out3⟩ := q
    show some (r2, delivered (_ ++ (_ ++ out3))) = some (r2, delivered (_ ++ out3))
    have e : delivered [Event.received f.seq, Event.out_of_order f.seq] = [] := rfl
    simp only [delivered_append, delivered_send_acks, e, List.append_nil, List.nil_append]

set_option maxRecDepth 100000 in
/-- C9 at a concrete input: frame 3 arriving twice while frame 1 is expected. -/
theorem idempotent_buffering_witness :
    waiting_receiver.buffer_invariant ∧
    frame_crc (sample_frame 3) = some (sample_frame 3).crc ∧
    (sample_frame 3).seq ≠ waiting_receiver.expected_seq ∧
    ∃ r1 out1 out2, waiting_receiver.iteration (some (sample_frame 3)) = some (r1, out1) ∧
      r1.iteration (some (sample_frame 3)) = some (r1, out2) ∧
      r1.buffer = waiting_receiver.buffer.assign (sample_frame 3).seq (sample_frame 3) ∧
      r1.buffer.find (sample_frame 3).seq = some (sample_frame 3) ∧
      r1.expected_seq = waiting_receiver.expected_seq ∧
      delivered out1 = [] ∧ delivered out2 = [] ∧
      ∀ rest : List (Option frame),
        (waiting_receiver.receive_frames
            (some (sample_frame 3) :: some (sample_frame 3) :: rest)).map
          (fun p => (p.1, delivered p.2)) =
        (waiting_receiver.receive_frames (some (sample_frame 3) :: rest)).map
          (fun p => (p.1, delivered p.2)) :=
  ⟨by decide, by decide, by decide,
   idempotent_buffering waiting_receiver (sample_frame 3) (by decide) (by decide) (by decide)⟩

/-! ## Properties of the checksum -/

set_option maxRecDepth 100000 in
/-- The payload `snprintf` leaves in backlog frame `k`: the text, the
terminator, then what the array held before. -/
theorem make_frame_data (old : List Nat) (k : Nat) (hk : k < 10) :
    (make_frame old k).info.data = 68 :: 97 :: 116 :: 97 :: 32 :: (48 + k) :: 0 :: old.drop 7 ∧
    (make_frame old k).crc = calculate_crc [68, 97, 116, 97, 32, 48 + k] := by
  interval_cases k <;> exact ⟨rfl, rfl⟩

/-- Whatever the backlog frame and whatever its bytes after the terminator, a
corruption at byte 7 or later leaves the recomputed checksum equal to the
stored one: the receiver cannot see it. -/
theorem corruption_past_terminator (old : List Nat) (k rnd : Nat) (hk : k < 10)
    (hr : 7 ≤ rnd % MAX_PKT) :
    frame_crc (corrupt_frame (make_frame old k) rnd) =
      some (corrupt_frame (make_frame old k) rnd).crc := by
  obtain ⟨hd, hc⟩ := make_frame_data old k hk
  obtain ⟨j, hj⟩ : ∃ j, rnd % MAX_PKT = j + 7 := ⟨rnd % MAX_PKT - 7, by omega⟩
  have hcrc : (corrupt_frame (make_frame old k) rnd).crc = (make_frame old k).crc := rfl
  have hdata : (corrupt_frame (make_frame old k) rnd).info.data =
      68 :: 97 :: 116 :: 97 :: 32 :: (48 + k) :: 0 ::
        List.modify (fun b => (b ^^^ 0xFF) % 256) j (old.drop 7) := by
    show List.modify _ (rnd % MAX_PKT) (make_frame old k).info.data = _
    rw [hj, hd]
    rfl
  rw [hcrc, hc]
  unfold frame_crc
  rw [hdata]
  have h48 : (48 + k != 0) = true := by simp
  simp [c_str, List.takeWhile, h48]

set_option maxRecDepth 100000 in
/-- C3, the code at the failing input.  The payload of backlog frame 3 is the
16 bytes `"Data 3"`, NUL, padding.  `corrupt_frame` choosing byte 10 changes
the payload (byte 10 becomes `0xFF`), yet the checksum the receiver recomputes
equals the one the sender stored, and the receiver takes the match branch:
it accepts the corrupted frame. -/
theorem corruption_past_terminator_accepted :
    (sample_frame 3).info.data.length = MAX_PKT ∧
    (corrupt_frame (sample_frame 3) 10).info.data ≠ (sample_frame 3).info.data ∧
    (corrupt_frame (sample_frame 3) 10).info.data[10]? = some 0xFF ∧
    frame_crc (sample_frame 3) = some (sample_frame 3).crc ∧
    frame_crc (corrupt_frame (sample_frame 3) 10) = some (corrupt_frame (sample_frame 3) 10).crc ∧
    ({ buffer := [], ack_queue := [], expected_seq := 3 } : Receiver).on_frame
        (corrupt_frame (sample_frame 3) 10) =
      some ({ buffer := [], ack_queue := [3], expected_seq := 4 },
            [Event.received 3, Event.delivering_frame 3]) := by
  decide

/-! ## The simulation -/

theorem Sender.getFromResendQueue_some (s : Sender) (f : frame) (s1 : Sender)
    (h : s.getFromResendQueue = some (f, s1)) :
    s.resend_queue = f :: s1.resend_queue ∧ s1.buffer = s.buffer ∧ s1.base = s.base ∧
      s1.next_seq_num = s.next_seq_num := by
  unfold Sender.getFromResendQueue at h
  split at h
  · cases h
  · rename_i g rest hq
    injection h with h
    injection h with h1 h2
    subst h1 h2
    exact ⟨hq, rfl, rfl, rfl⟩

/-- The receiver prints "Received frame s" only for an arrival with that `seq`
whose checksum matches. -/
theorem Receiver.iteration_received (r : Receiver) (a : Option frame) (r1 : Receiver)
    (out : List Event) (s : Nat) (h : r.iteration a = some (r1, out))
    (hs : Event.received s ∈ out) :
    ∃ f, a = some f ∧ f.seq = s ∧ frame_crc f = some f.crc := by
  have hflush : ∀ b e, Event.received s ∉ (deliver_in_order b e).2.2 := by
    intro b e hmem
    obtain ⟨p, _, hp⟩ := deliver_loop_src _ _ _ _ hmem
    cases hp
  have hacks : ∀ q, Event.received s ∉ Receiver.send_acks q := by
    intro q hmem
    rcases mem_send_acks _ _ hmem with h1 | ⟨t, h1⟩ <;> cases h1
  cases a with
  | none =>
    simp only [Receiver.iteration, Option.some.injEq, Prod.mk.injEq] at h
    obtain ⟨_, h2⟩ := h
    subst h2
    simp only [List.nil_append, List.mem_append] at hs
    rcases hs with hs | hs
    · exact absurd hs (hacks _)
    · exact absurd hs (hflush _ _)
  | some f =>
    refine ⟨f, rfl, ?_⟩
    simp only [Receiver.iteration, Receiver.on_frame] at h
    cases hc : frame_crc f with
    | none => simp [hc] at h
    | some c =>
      simp only [hc] at h
      by_cases hne : c = f.crc
      · subst hne
        simp only [ne_eq, not_true_eq_false, if_false] at h
        by_cases hseq : f.seq = r.expected_seq
        · simp only [hseq, if_true, Option.some.injEq, Prod.mk.injEq] at h
          obtain ⟨_, h2⟩ := h
          subst h2
          rcases List.mem_append.mp hs with hs | hs
          · rcases List.mem_append.mp hs with hs | hs
            · rcases List.mem_append.mp hs with hs | hs
              · simp only [List.mem_cons, Event.received.injEq, List.mem_nil_iff, or_false,
                  reduceCtorEq] at hs
                exact ⟨by rw [hseq, hs], rfl⟩
              · exact absurd hs (hflush _ _)
            · exact absurd hs (hacks _)
          · exact absurd hs (hflush _ _)
        · simp only [hseq, if_false, Option.some.injEq, Prod.mk.injEq] at h
          obtain ⟨_, h2⟩ := h
          subst h2
          rcases List.mem_append.mp hs with hs | hs
          · rcases List.mem_append.mp hs with hs | hs
            · simp only [List.mem_cons, Event.received.injEq, List.mem_nil_iff, or_false,
                reduceCtorEq] at hs
              exact ⟨hs.symm, rfl⟩
            · exact absurd hs (hacks _)
          · exact absurd hs (hflush _ _)
      · simp only [ne_eq, hne, not_false_eq_true, if_true, Option.some.injEq,
          Prod.mk.injEq] at h
        obtain ⟨_, h2⟩ := h
        subst h2
        rcases List.mem_append.mp hs with hs | hs
        · rcases List.mem_append.mp hs with hs | hs
          · simp at hs
          · exact absurd hs (hacks _)
        · exact absurd hs (hflush _ _)

theorem sender_events_not_received (s : Sender) (f : frame) (t : Nat) :
    Event.received t ∉ (s.respond f).2 ∧ Event.received t ∉ s.send_next.2 := by
  constructor
  · unfold Sender.respond
    split <;> simp
  · unfold Sender.send_next
    split <;> simp

/-! ### The step of `send_frames`, case by case -/

theorem Sim.send_frames_step_held (σ : Sim) (f : frame) (hh : σ.held = some f) :
    σ.send_frames_step =
      { σ with sender := (σ.sender.respond f).1, held := none,
               output := σ.output ++ (σ.sender.respond f).2 } := by
  simp [Sim.send_frames_step, hh]

theorem Sim.send_frames_step_open (σ : Sim) (hh : σ.held = none)
    (ho : σ.sender.window_open = true) :
    σ.send_frames_step =
      { σ with sender := σ.sender.send_next.1,
               output := σ.output ++ σ.sender.send_next.2 } := by
  simp [Sim.send_frames_step, hh, ho]

theorem Sim.send_frames_step_idle (σ : Sim) (hh : σ.held = none)
    (ho : σ.sender.window_open = false) (hg : σ.sender.getFromResendQueue = none) :
    σ.send_frames_step = σ := by
  simp [Sim.send_frames_step, hh, ho, hg]

theorem Sim.send_frames_step_get (σ : Sim) (f : frame) (s1 : Sender) (hh : σ.held = none)
    (ho : σ.sender.window_open = false) (hg : σ.sender.getFromResendQueue = some (f, s1)) :
    σ.send_frames_step = { σ with sender := s1, held := some f } := by
  simp [Sim.send_frames_step, hh, ho, hg]

/-- A step of `send_frames` keeps the invariant. -/
theorem Sim.inv_send_frames_step (B : List frame) (σ : Sim) (hlen : B.length = 10)
    (hack : ∀ f ∈ B, f.ack = 0) (h : σ.inv B) : σ.send_frames_step.inv B := by
  obtain ⟨hbuf, hq, hheld, hwin, hrecv⟩ := h
  cases hh : σ.held with
  | some f =>
    rw [Sim.send_frames_step_held σ f hh]
    have hfB : f ∈ B := hheld f hh
    have hf0 : f.ack = 0 := hack f hfB
    have hrecv2 : ∀ s, Event.received s ∈ σ.output ++ (σ.sender.respond f).2 →
        ∃ f ∈ B, f.seq = s ∧ frame_crc f = some f.crc := by
      intro s hs
      rcases List.mem_append.mp hs with hs | hs
      · exact hrecv s hs
      · exact absurd hs (sender_events_not_received _ _ _).1
    simp only [hh] at hwin
    rcases hwin with ⟨hb, _, hn⟩ | ⟨hb, _, _, hn⟩
    · have hn4 := hn (by simp)
      have hr : (σ.sender.respond f).1 = { σ.sender with base := 1 } := by
        simp [Sender.respond, hf0, hb, MAX_SEQ]
      refine ⟨?_, ?_, ?_, ?_, hrecv2⟩
      · show (σ.sender.respond f).1.buffer = B
        rw [hr]; exact hbuf
      · show ∀ g ∈ (σ.sender.respond f).1.resend_queue, g ∈ B
        rw [hr]; exact hq
      · intro g hg; cases hg
      · right
        show (σ.sender.respond f).1.base = 1 ∧ 4 ≤ (σ.sender.respond f).1.next_seq_num ∧
          (σ.sender.respond f).1.next_seq_num ≤ 5 ∧
          ((none : Option frame) ≠ none → (σ.sender.respond f).1.next_seq_num = 5)
        rw [hr]
        exact ⟨rfl, by show 4 ≤ σ.sender.next_seq_num; omega,
          by show σ.sender.next_seq_num ≤ 5; omega, fun hc => absurd rfl hc⟩
    · have hn5 := hn (by simp)
      have hr : (σ.sender.respond f).1 = σ.sender.addToResendQueue f := by
        simp [Sender.respond, hf0, hb, MAX_SEQ]
      refine ⟨?_, ?_, ?_, ?_, hrecv2⟩
      · show (σ.sender.respond f).1.buffer = B
        rw [hr]; exact hbuf
      · show ∀ g ∈ (σ.sender.respond f).1.resend_queue, g ∈ B
        rw [hr]
        intro g hg
        rcases List.mem_append.mp hg with hg | hg
        · exact hq g hg
        · rw [List.mem_singleton.mp hg]; exact hfB
      · intro g hg; cases hg
      · right
        show (σ.sender.respond f).1.base = 1 ∧ 4 ≤ (σ.sender.respond f).1.next_seq_num ∧
          (σ.sender.respond f).1.next_seq_num ≤ 5 ∧
          ((none : Option frame) ≠ none → (σ.sender.respond f).1.next_seq_num = 5)
        rw [hr]
        exact ⟨hb, by show 4 ≤ σ.sender.next_seq_num; omega,
          by show σ.sender.next_seq_num ≤ 5; omega, fun hc => absurd rfl hc⟩
  | none =>
    simp only [hh, ne_eq, not_true_eq_false, false_implies, and_true] at hwin
    cases hopen : σ.sender.window_open with
    | true =>
      rw [Sim.send_frames_step_open σ hh hopen]
      have ho := hopen
      simp only [Sender.window_open, Bool.and_eq_true, decide_eq_true_eq, hbuf, hlen] at ho
      obtain ⟨ho1, ho2⟩ := ho
      have hlt : σ.sender.next_seq_num < σ.sender.buffer.length := by rw [hbuf, hlen]; exact ho2
      have hget : σ.sender.buffer[σ.sender.next_seq_num]? =
          some (σ.sender.buffer[σ.sender.next_seq_num]) := List.getElem?_eq_getElem hlt
      have hmem : σ.sender.buffer[σ.sender.next_seq_num] ∈ B := by
        rw [← hbuf]; exact List.getElem_mem hlt
      have hsn : σ.sender.send_next.1 =
          { σ.sender.addToResendQueue (σ.sender.buffer[σ.sender.next_seq_num]) with
              next_seq_num := u32 (σ.sender.next_seq_num + 1) } := by
        simp only [Sender.send_next, hget]
      refine ⟨?_, ?_, ?_, ?_, ?_⟩
      · show σ.sender.send_next.1.buffer = B
        rw [hsn]; exact hbuf
      · show ∀ g ∈ σ.sender.send_next.1.resend_queue, g ∈ B
        rw [hsn]
        intro g hg
        rcases List.mem_append.mp hg with hg | hg
        · exact hq g hg
        · rw [List.mem_singleton.mp hg]; exact hmem
      · intro g hg
        have : σ.held = some g := hg
        rw [hh] at this; cases this
      · show (σ.sender.send_next.1.base = 0 ∧ σ.sender.send_next.1.next_seq_num ≤ 4 ∧
            (σ.held ≠ none → σ.sender.send_next.1.next_seq_num = 4)) ∨
          (σ.sender.send_next.1.base = 1 ∧ 4 ≤ σ.sender.send_next.1.next_seq_num ∧
            σ.sender.send_next.1.next_seq_num ≤ 5 ∧
            (σ.held ≠ none → σ.sender.send_next.1.next_seq_num = 5))
        rw [hsn]
        have hbase : ({ σ.sender.addToResendQueue (σ.sender.buffer[σ.sender.next_seq_num]) with
              next_seq_num := u32 (σ.sender.next_seq_num + 1) } : Sender).base =
            σ.sender.base := rfl
        have hnext : ({ σ.sender.addToResendQueue (σ.sender.buffer[σ.sender.next_seq_num]) with
              next_seq_num := u32 (σ.sender.next_seq_num + 1) } : Sender).next_seq_num =
            u32 (σ.sender.next_seq_num + 1) := rfl
        rw [hbase, hnext]
        rcases hwin with ⟨hb, hn⟩ | ⟨hb, hn1, hn2⟩
        · left
          rw [hb] at ho1
          simp only [u32, WINDOW_SIZE] at ho1 ⊢
          exact ⟨hb, by omega, fun hc => absurd hh hc⟩
        · right
          rw [hb] at ho1
          simp only [u32, WINDOW_SIZE] at ho1 ⊢
          exact ⟨hb, by omega, by omega, fun hc => absurd hh hc⟩
      · intro s hs
        rcases List.mem_append.mp hs with hs | hs
        · exact hrecv s hs
        · exact absurd hs (sender_events_not_received _ (sample_frame 0) _).2
    | false =>
      have hclosed : ¬ (σ.sender.next_seq_num < u32 (σ.sender.base + WINDOW_SIZE) ∧
          σ.sender.next_seq_num < 10) := by
        intro hc
        have : σ.sender.window_open = true := by
          simp [Sender.window_open, hbuf, hlen, hc.1, hc.2]
        rw [hopen] at this; cases this
      cases hg : σ.sender.getFromResendQueue with
      | none =>
        rw [Sim.send_frames_step_idle σ hh hopen hg]
        exact ⟨hbuf, hq, hheld, by simpa [hh] using hwin, hrecv⟩
      | some p =>
        obtain ⟨f, s1⟩ := p
        rw [Sim.send_frames_step_get σ f s1 hh hopen hg]
        obtain ⟨hq1, hb1, hbase1, hn1⟩ := Sender.getFromResendQueue_some _ _ _ hg
        refine ⟨?_, ?_, ?_, ?_, hrecv⟩
        · show s1.buffer = B
          rw [hb1]; exact hbuf
        · intro g hg2
          exact hq g (by rw [hq1]; exact List.mem_cons_of_mem _ hg2)
        · intro g hg2
          have hfg : some f = some g := hg2
          injection hfg with hfg
          subst hfg
          exact hq f (by rw [hq1]; exact List.mem_cons_self _ _)
        · show (s1.base = 0 ∧ s1.next_seq_num ≤ 4 ∧
              (some f ≠ none → s1.next_seq_num = 4)) ∨
            (s1.base = 1 ∧ 4 ≤ s1.next_seq_num ∧ s1.next_seq_num ≤ 5 ∧
              (some f ≠ none → s1.next_seq_num = 5))
          rw [hbase1, hn1]
          rcases hwin with ⟨hb, hn⟩ | ⟨hb, hn1, hn2⟩
          · left
            rw [hb] at hclosed
            simp only [u32, WINDOW_SIZE] at hclosed
            exact ⟨hb, hn, fun _ => by omega⟩
          · right
            rw [hb] at hclosed
            simp only [u32, WINDOW_SIZE] at hclosed
            exact ⟨hb, hn1, hn2, fun _ => by omega⟩

/-- A pass of `receive_frames` keeps the invariant. -/
theorem Sim.inv_receive_frames_step (B : List frame) (σ σ1 : Sim) (h : σ.inv B)
    (hs : σ.receive_frames_step = some σ1) : σ1.inv B := by
  obtain ⟨hbuf, hq, hheld, hwin, hrecv⟩ := h
  unfold Sim.receive_frames_step at hs
  cases hg : (if σ.sender.isResendQueueEmpty then none else σ.sender.getFromResendQueue) with
  | none =>
    simp only [hg] at hs
    cases hi : σ.receiver.iteration none with
    | none => simp [hi] at hs
    | some p =>
      obtain ⟨r, out⟩ := p
      simp only [hi, Option.some.injEq] at hs
      subst hs
      refine ⟨hbuf, hq, hheld, hwin, ?_⟩
      intro s hmem
      rcases List.mem_append.mp hmem with hmem | hmem
      · exact hrecv s hmem
      · obtain ⟨f, hf, _⟩ := Receiver.iteration_received _ _ _ _ s hi hmem
        cases hf
  | some p =>
    obtain ⟨f, s1⟩ := p
    simp only [hg] at hs
    have hg1 : σ.sender.getFromResendQueue = some (f, s1) := by
      split at hg
      · cases hg
      · exact hg
    obtain ⟨hq1, hb1, hbase1, hn1⟩ := Sender.getFromResendQueue_some _ _ _ hg1
    have hfB : f ∈ B := hq f (by rw [hq1]; exact List.mem_cons_self _ _)
    cases hi : σ.receiver.iteration (some f) with
    | none => simp [hi] at hs
    | some p =>
      obtain ⟨r, out⟩ := p
      simp only [hi, Option.some.injEq] at hs
      subst hs
      refine ⟨?_, ?_, hheld, ?_, ?_⟩
      · show s1.buffer = B
        rw [hb1]; exact hbuf
      · intro g hg2
        exact hq g (by rw [hq1]; exact List.mem_cons_of_mem _ hg2)
      · show (s1.base = 0 ∧ s1.next_seq_num ≤ 4 ∧ (σ.held ≠ none → s1.next_seq_num = 4)) ∨
          (s1.base = 1 ∧ 4 ≤ s1.next_seq_num ∧ s1.next_seq_num ≤ 5 ∧
            (σ.held ≠ none → s1.next_seq_num = 5))
        rw [hbase1, hn1]; exact hwin
      · intro s hmem
        rcases List.mem_append.mp hmem with hmem | hmem
        · exact hrecv s hmem
        · obtain ⟨g, hg2, hseq, hcrc⟩ := Receiver.iteration_received _ _ _ _ s hi hmem
          injection hg2 with hg2
          subst hg2
          exact ⟨f, hfB, hseq, hcrc⟩

/-- Every state reached from a state that satisfies the invariant satisfies
it. -/
theorem Sim.inv_run (B : List frame) (hlen : B.length = 10) (hack : ∀ f ∈ B, f.ack = 0) :
    ∀ (sched : List Actor) (σ σ1 : Sim), σ.inv B → σ.run sched = some σ1 → σ1.inv B := by
  intro sched
  induction sched with
  | nil =>
    intro σ σ1 h hr
    simp only [Sim.run, Option.some.injEq] at hr
    subst hr; exact h
  | cons a rest ih =>
    intro σ σ1 h hr
    cases a with
    | sender =>
      simp only [Sim.run, Sim.step] at hr
      exact ih _ _ (Sim.inv_send_frames_step B σ hlen hack h) hr
    | receiver =>
      simp only [Sim.run, Sim.step] at hr
      cases hs : σ.receive_frames_step with
      | none => simp [hs] at hr
      | some σ2 =>
        simp only [hs] at hr
        exact ih _ _ (Sim.inv_receive_frames_step B σ σ2 h hs) hr

/-! ### The backlog -/

theorem mem_modify {α : Type} (g : α → α) : ∀ (n : Nat) (l : List α) (x : α),
    x ∈ List.modify g n l → x ∈ l ∨ ∃ y ∈ l, x = g y := by
  intro n l
  induction l generalizing n with
  | nil => intro x hx; cases n <;> simp [List.modify] at hx
  | cons a rest ih =>
    intro x hx
    cases n with
    | zero =>
      rw [List.modify_zero_cons] at hx
      rcases List.mem_cons.mp hx with h | h
      · exact Or.inr ⟨a, List.mem_cons_self _ _, h⟩
      · exact Or.inl (List.mem_cons_of_mem _ h)
    | succ n =>
      rw [List.modify_succ_cons] at hx
      rcases List.mem_cons.mp hx with h | h
      · exact Or.inl (h ▸ List.mem_cons_self _ _)
      · rcases ih n x h with h1 | ⟨y, hy, hxy⟩
        · exact Or.inl (List.mem_cons_of_mem _ h1)
        · exact Or.inr ⟨y, List.mem_cons_of_mem _ hy, hxy⟩

theorem main_corrupt_length : ∀ (rands : List (Nat × Nat)) (b : List frame),
    (main_corrupt b rands).length = b.length := by
  intro rands
  induction rands with
  | nil => intro b; rfl
  | cons p rest ih =>
    intro b
    obtain ⟨r1, r2⟩ := p
    simp only [main_corrupt]
    rw [ih, List.length_modify]

theorem main_corrupt_ack : ∀ (rands : List (Nat × Nat)) (b : List frame),
    (∀ f ∈ b, f.ack = 0) → ∀ f ∈ main_corrupt b rands, f.ack = 0 := by
  intro rands
  induction rands with
  | nil => intro b hb; exact hb
  | cons p rest ih =>
    intro b hb
    obtain ⟨r1, r2⟩ := p
    simp only [main_corrupt]
    apply ih
    intro f hf
    rcases mem_modify _ _ _ _ hf with h | ⟨y, hy, hfy⟩
    · exact hb f h
    · rw [hfy]; exact hb y hy

theorem Sender.new_ack (uninit : Nat → List Nat) : ∀ f ∈ (Sender.new uninit).buffer, f.ack = 0 := by
  intro f hf
  obtain ⟨i, _, hi⟩ := List.mem_map.mp hf
  rw [← hi]; rfl

theorem Sim.init_backlog (uninit : Nat → List Nat) (rands : List (Nat × Nat)) :
    (Sim.init uninit rands).sender.buffer.length = 10 ∧
    ∀ f ∈ (Sim.init uninit rands).sender.buffer, f.ack = 0 :=
  ⟨by show (main_corrupt _ rands).length = 10
      rw [main_corrupt_length]; rfl,
   main_corrupt_ack rands _ (Sender.new_ack uninit)⟩

theorem Sim.init_inv (uninit : Nat → List Nat) (rands : List (Nat × Nat)) :
    (Sim.init uninit rands).inv (Sim.init uninit rands).sender.buffer := by
  refine ⟨rfl, ?_, ?_, Or.inl ⟨rfl, Nat.zero_le _, fun hc => absurd rfl hc⟩, ?_⟩
  · intro f hf
    have : f ∈ ([] : List frame) := hf
    cases this
  · intro f hf
    have : (none : Option frame) = some f := hf
    cases this
  · intro s hs
    have : Event.received s ∈ ([] : List Event) := hs
    cases this

/-- The invariant holds in every state the simulation reaches. -/
theorem Sim.reachable_inv (uninit : Nat → List Nat) (rands : List (Nat × Nat))
    (sched : List Actor) (σ : Sim) (h : (Sim.init uninit rands).run sched = some σ) :
    σ.inv (Sim.init uninit rands).sender.buffer :=
  Sim.inv_run _ (Sim.init_backlog uninit rands).1 (Sim.init_backlog uninit rands).2
    sched _ σ (Sim.init_inv uninit rands) h

/-! ## Properties of the sender and of the simulation -/

/-- C4. Window bound.  In every state reached by the simulation from
`base = next_seq_num = 0` over the ten-frame backlog (whatever the indeterminate
bytes and the corruptions injected by `main`), for every interleaving of the
steps of `send_frames` with the passes of the receiver, which removes frames
from the head of the resend queue: `0 ≤ next_seq_num - base ≤ WINDOW_SIZE`, and
hence `(next_seq_num - base) mod 8 ≤ WINDOW_SIZE`. -/
theorem window_bound (uninit : Nat → List Nat) (rands : List (Nat × Nat))
    (sched : List Actor) (σ : Sim) (h : (Sim.init uninit rands).run sched = some σ) :
    (0 : Int) ≤ (σ.sender.next_seq_num : Int) - (σ.sender.base : Int) ∧
    (σ.sender.next_seq_num : Int) - (σ.sender.base : Int) ≤ (WINDOW_SIZE : Int) ∧
    (σ.sender.next_seq_num - σ.sender.base) % (MAX_SEQ + 1) ≤ WINDOW_SIZE := by
  obtain ⟨_, _, _, hwin, _⟩ := Sim.reachable_inv uninit rands sched σ h
  simp only [WINDOW_SIZE, MAX_SEQ]
  rcases hwin with ⟨hb, hn, _⟩ | ⟨hb, hn1, hn2, _⟩ <;> omega

set_option maxRecDepth 100000 in
/-- C4 at a concrete schedule of the scenario. -/
theorem window_bound_witness :
    (Sim.init (fun _ => List.replicate MAX_PKT 0) [(3, 0)]).run retransmit_schedule =
      some rejected_state ∧
    (0 : Int) ≤ (rejected_state.sender.next_seq_num : Int) - (rejected_state.sender.base : Int) ∧
    (rejected_state.sender.next_seq_num : Int) - (rejected_state.sender.base : Int) ≤
      (WINDOW_SIZE : Int) ∧
    (rejected_state.sender.next_seq_num - rejected_state.sender.base) % (MAX_SEQ + 1) ≤
      WINDOW_SIZE :=
  ⟨by decide,
   window_bound (fun _ => List.replicate MAX_PKT 0) [(3, 0)] retransmit_schedule
     rejected_state (by decide)⟩

/-- C5, what the code does.  In the concrete scenario (frame index 3 corrupted
once) no reachable state has `base = 4` and none has `next_seq_num = 10`: in
every reachable state `base ≤ 1` and `next_seq_num ≤ 5`.  The frames in the
resend queue keep `ack = 0`, so the acknowledgment test of `send_frames`
succeeds only while `base = 0`. -/
theorem window_stuck (uninit : Nat → List Nat) (sched : List Actor) (σ : Sim)
    (h : (scenario_init uninit).run sched = some σ) :
    σ.sender.base ≤ 1 ∧ σ.sender.next_seq_num ≤ 5 ∧
    σ.sender.base ≠ 4 ∧ σ.sender.next_seq_num ≠ 10 := by
  obtain ⟨_, _, _, hwin, _⟩ := Sim.reachable_inv uninit [(3, 0)] sched σ h
  rcases hwin with ⟨hb, hn, _⟩ | ⟨hb, hn1, hn2, _⟩ <;> omega

set_option maxRecDepth 100000 in
/-- C5 at a concrete schedule: the window has slid once and five frames have
been sent. -/
theorem window_stuck_witness :
    (scenario_init (fun _ => List.replicate MAX_PKT 0)).run retransmit_schedule =
      some rejected_state ∧
    rejected_state.sender.base ≤ 1 ∧ rejected_state.sender.next_seq_num ≤ 5 ∧
    rejected_state.sender.base ≠ 4 ∧ rejected_state.sender.next_seq_num ≠ 10 :=
  ⟨by decide,
   window_stuck (fun _ => List.replicate MAX_PKT 0) retransmit_schedule rejected_state
     (by decide)⟩

theorem scenario_backlog (uninit : Nat → List Nat) :
    (scenario_init uninit).sender.buffer =
      [make_frame (uninit 0) 0, make_frame (uninit 1) 1, make_frame (uninit 2) 2,
       corrupt_frame (make_frame (uninit 3) 3) 0, make_frame (uninit 4) 4,
       make_frame (uninit 5) 5, make_frame (uninit 6) 6, make_frame (uninit 7) 7,
       make_frame (uninit 8) 8, make_frame (uninit 9) 9] := rfl

set_option maxRecDepth 100000 in
/-- Backlog frame 3 with byte 0 flipped: the checksum recomputed over the
string that now starts with byte `0xBB` differs from the one stored for
`"Data 3"`, whatever the bytes after the terminator. -/
theorem corrupted_frame_three (old : List Nat) :
    frame_crc (corrupt_frame (make_frame old 3) 0) = some 2534769023 ∧
    (corrupt_frame (make_frame old 3) 0).crc = 740169439 := by
  have h : (corrupt_frame (make_frame old 3) 0).info.data =
      187 :: 97 :: 116 :: 97 :: 32 :: 51 :: 0 :: old.drop 7 := rfl
  have h2 : c_str (187 :: 97 :: 116 :: 97 :: 32 :: 51 :: 0 :: old.drop 7) =
      some [187, 97, 116, 97, 32, 51] := rfl
  constructor
  · unfold frame_crc
    rw [h, h2]
    decide
  · show calculate_crc [68, 97, 116, 97, 32, 51] = 740169439
    decide

/-- In the scenario every backlog frame with `seq = 3` fails the checksum
comparison. -/
theorem scenario_frame_three (uninit : Nat → List Nat) (f : frame)
    (hf : f ∈ (scenario_init uninit).sender.buffer) (hseq : f.seq = 3) :
    frame_crc f ≠ some f.crc := by
  rw [scenario_backlog] at hf
  have hmk : ∀ old i, (make_frame old i).seq = i := fun _ _ => rfl
  simp only [List.mem_cons, List.mem_nil_iff, or_false] at hf
  rcases hf with h | h | h | h | h | h | h | h | h | h
  all_goals first
    | (rw [h, hmk] at hseq; omega)
    | (rw [h, (corrupted_frame_three _).1, (corrupted_frame_three _).2]; decide)

/-- C6, what the code does.  In the scenario (backlog frame 3 corrupted once,
at byte 0) no reachable state of the simulation has the receiver taking the
checksum-match branch for a frame with `seq = 3`: "Received frame 3" is never
printed.  `corrupt_frame` changed the frame in the sender's backlog, every
transmission and retransmission is a copy of that frame, and each copy fails
the comparison. -/
theorem corrupted_frame_never_accepted (uninit : Nat → List Nat) (sched : List Actor)
    (σ : Sim) (h : (scenario_init uninit).run sched = some σ) :
    Event.received 3 ∉ σ.output := by
  intro hmem
  obtain ⟨_, _, _, _, hrecv⟩ := Sim.reachable_inv uninit [(3, 0)] sched σ h
  obtain ⟨f, hf, hseq, hcrc⟩ := hrecv 3 hmem
  exact scenario_frame_three uninit f hf hseq hcrc

set_option maxRecDepth 100000 in
/-- C6 at a concrete schedule, in which the sender retransmits frame 3 and the
receiver rejects the retransmitted copy. -/
theorem corrupted_frame_never_accepted_witness :
    (scenario_init (fun _ => List.replicate MAX_PKT 0)).run retransmit_schedule =
      some rejected_state ∧
    Event.received 3 ∉ rejected_state.output :=
  ⟨by decide,
   corrupted_frame_never_accepted (fun _ => List.replicate MAX_PKT 0) retransmit_schedule
     rejected_state (by decide)⟩

set_option maxRecDepth 100000 in
/-- The console output of the schedule of the witness: frame 3 is
retransmitted by the sender and the retransmitted copy is rejected by the
receiver. -/
theorem retransmitted_copy_rejected :
    (scenario_zero.run retransmit_schedule).map (fun σ => σ.output) =
      some [Event.sending 0 4151251103, Event.sending 1 450335679, Event.sending 2 3248920063,
            Event.sending 3 740169439, Event.ack_received 0, Event.sending 4 2600213087,
            Event.received 1, Event.out_of_order 1, Event.sending_ack 1,
            Event.received 2, Event.out_of_order 2, Event.sending_ack 2,
            Event.timeout 3, Event.retransmitting 3,
            Event.received 4, Event.out_of_order 4, Event.sending_ack 4,
            Event.error_in_frame 3 2534769023, Event.sending_nak] := by
  decide

set_option maxRecDepth 100000 in
/-- C10, counterexample.  After ten steps of the sender alone on the
uncorrupted backlog, `send_frames` holds frame 2 while `base = 1`; its response
step takes the retransmission branch and appends that frame, whose `seq` is 2,
not `base`, to the resend queue. -/
theorem retransmits_frame_not_at_base :
    clean_init.run sender_only_schedule = some held_state ∧
    held_state.held = some (sample_frame 2) ∧ held_state.sender.base = 1 ∧
    (sample_frame 2).ack ≠ held_state.sender.base % (MAX_SEQ + 1) ∧
    held_state.send_frames_step.sender.resend_queue =
      held_state.sender.resend_queue ++ [sample_frame 2] ∧
    held_state.send_frames_step.output =
      held_state.output ++ [Event.timeout 2, Event.retransmitting 2] ∧
    (sample_frame 2).seq ≠ held_state.sender.base := by
  decide

/-- C10, amended.  In every reachable state in which the response step of
`send_frames` takes the retransmission branch, the frame it appends to the
resend queue is the frame it had taken from the head of that queue, an
unchanged copy of a backlog frame, whatever its `seq`; `base` and
`next_seq_num` are left as they were, and "Timeout" and "Retransmitting" are
printed for that frame. -/
theorem retransmits_dequeued_frame (uninit : Nat → List Nat) (rands : List (Nat × Nat))
    (sched : List Actor) (σ : Sim) (f : frame)
    (h : (Sim.init uninit rands).run sched = some σ) (hh : σ.held = some f)
    (hne : f.ack ≠ σ.sender.base % (MAX_SEQ + 1)) :
    σ.send_frames_step.sender.resend_queue = σ.sender.resend_queue ++ [f] ∧
    f ∈ (Sim.init uninit rands).sender.buffer ∧
    σ.send_frames_step.sender.base = σ.sender.base ∧
    σ.send_frames_step.sender.next_seq_num = σ.sender.next_seq_num ∧
    σ.send_frames_step.held = none ∧
    σ.send_frames_step.output = σ.output ++ [Event.timeout f.seq, Event.retransmitting f.seq] := by
  obtain ⟨_, _, hheld, _, _⟩ := Sim.reachable_inv uninit rands sched σ h
  have hr : σ.sender.respond f =
      (σ.sender.addToResendQueue f, [Event.timeout f.seq, Event.retransmitting f.seq]) := by
    simp [Sender.respond, hne]
  rw [Sim.send_frames_step_held σ f hh, hr]
  exact ⟨rfl, hheld f hh, rfl, rfl, rfl, rfl⟩

set_option maxRecDepth 100000 in
/-- C10, amended, at the state of the counterexample. -/
theorem retransmits_dequeued_frame_witness :
    (Sim.init (fun _ => List.replicate MAX_PKT 0) []).run sender_only_schedule =
      some held_state ∧
    held_state.held = some (sample_frame 2) ∧
    (sample_frame 2).ack ≠ held_state.sender.base % (MAX_SEQ + 1) ∧
    held_state.send_frames_step.sender.resend_queue =
      held_state.sender.resend_queue ++ [sample_frame 2] ∧
    sample_frame 2 ∈ (Sim.init (fun _ => List.replicate MAX_PKT 0) []).sender.buffer ∧
    held_state.send_frames_step.sender.base = held_state.sender.base ∧
    held_state.send_frames_step.sender.next_seq_num = held_state.sender.next_seq_num ∧
    held_state.send_frames_step.held = none ∧
    held_state.send_frames_step.output =
      held_state.output ++ [Event.timeout (sample_frame 2).seq,
                            Event.retransmitting (sample_frame 2).seq] :=
  ⟨by decide, by decide, by decide,
   retransmits_dequeued_frame (fun _ => List.replicate MAX_PKT 0) [] sender_only_schedule
     held_state (sample_frame 2) (by decide) (by decide) (by decide)⟩

/-! ## The steps of the sender -/

/-- C11. Window slide on acknowledgment.  For every sender state and every
frame `f` taken from the front of the resend queue with `f.ack = base mod 8`,
the response step of `send_frames` sets `base` to `(f.ack + 1) mod 8`, which is
`(base + 1) mod 8` (`base + 1` while `base < MAX_SEQ`): the window advances by
one frame.  It leaves `next_seq_num` and the backlog unchanged and does not
re-enqueue `f`: the resend queue is the queue without its front. -/
theorem window_slide_on_ack (s0 s : Sender) (f : frame)
    (hget : s0.getFromResendQueue = some (f, s)) (hack : f.ack = s.base % (MAX_SEQ + 1)) :
    (s.respond f).1.base = (f.ack + 1) % (MAX_SEQ + 1) ∧
    (s.respond f).1.base = (s0.base + 1) % (MAX_SEQ + 1) ∧
    (s0.base < MAX_SEQ → (s.respond f).1.base = s0.base + 1) ∧
    (s.respond f).1.next_seq_num = s0.next_seq_num ∧
    (s.respond f).1.buffer = s0.buffer ∧
    s0.resend_queue = f :: (s.respond f).1.resend_queue ∧
    (s.respond f).2 = [Event.ack_received f.seq] := by
  obtain ⟨hq, hb, hbase, hn⟩ := Sender.getFromResendQueue_some s0 f s hget
  have hr : s.respond f =
      ({ s with base := (f.ack + 1) % (MAX_SEQ + 1) }, [Event.ack_received f.seq]) := by
    simp [Sender.respond, hack]
  rw [hr]
  refine ⟨rfl, ?_, ?_, hn, hb, hq, rfl⟩
  · show (f.ack + 1) % (MAX_SEQ + 1) = _
    rw [hack, hbase]; simp [MAX_SEQ]
  · intro hlt
    show (f.ack + 1) % (MAX_SEQ + 1) = _
    rw [hack, hbase]
    simp only [MAX_SEQ] at hlt ⊢
    omega

set_option maxRecDepth 100000 in
/-- C11 at a concrete input: the sender takes frame 0 after the first fill of
the window. -/
theorem window_slide_on_ack_witness :
    filled_sender.getFromResendQueue = some (sample_frame 0, dequeued_sender) ∧
    (sample_frame 0).ack = dequeued_sender.base % (MAX_SEQ + 1) ∧
    (dequeued_sender.respond (sample_frame 0)).1.base =
      ((sample_frame 0).ack + 1) % (MAX_SEQ + 1) ∧
    (dequeued_sender.respond (sample_frame 0)).1.base = (filled_sender.base + 1) % (MAX_SEQ + 1) ∧
    (filled_sender.base < MAX_SEQ →
      (dequeued_sender.respond (sample_frame 0)).1.base = filled_sender.base + 1) ∧
    (dequeued_sender.respond (sample_frame 0)).1.next_seq_num = filled_sender.next_seq_num ∧
    (dequeued_sender.respond (sample_frame 0)).1.buffer = filled_sender.buffer ∧
    filled_sender.resend_queue =
      sample_frame 0 :: (dequeued_sender.respond (sample_frame 0)).1.resend_queue ∧
    (dequeued_sender.respond (sample_frame 0)).2 = [Event.ack_received (sample_frame 0).seq] :=
  ⟨by decide, by decide,
   window_slide_on_ack filled_sender dequeued_sender (sample_frame 0) (by decide) (by decide)⟩

/-- The fill loop in closed form: with enough passes allowed, it sends the
backlog frames from `next_seq_num` up to the smaller of `base + WINDOW_SIZE`
(as the `unsigned` sum of the source) and the backlog size. -/
theorem Sender.fill_loop_spec : ∀ (n : Nat) (s : Sender), s.buffer.length = 10 →
    10 - s.next_seq_num ≤ n →
    Sender.fill_loop n s =
      ({ s with
          next_seq_num := max s.next_seq_num (min (u32 (s.base + WINDOW_SIZE)) 10),
          resend_queue := s.resend_queue ++
            (s.buffer.drop s.next_seq_num).take
              (max s.next_seq_num (min (u32 (s.base + WINDOW_SIZE)) 10) - s.next_seq_num) },
       ((s.buffer.drop s.next_seq_num).take
          (max s.next_seq_num (min (u32 (s.base + WINDOW_SIZE)) 10) - s.next_seq_num)).map
         (fun f => Event.sending f.seq f.crc)) := by
  intro n
  induction n with
  | zero =>
    intro s hlen hn
    have h1 : max s.next_seq_num (min (u32 (s.base + WINDOW_SIZE)) 10) = s.next_seq_num := by
      omega
    simp [Sender.fill_loop, h1]
  | succ n ih =>
    intro s hlen hn
    by_cases ho : s.next_seq_num < u32 (s.base + WINDOW_SIZE) ∧ s.next_seq_num < 10
    · obtain ⟨ho1, ho2⟩ := ho
      have hopen : s.window_open = true := by
        simp [Sender.window_open, hlen, ho1, ho2]
      have hlt : s.next_seq_num < s.buffer.length := by rw [hlen]; exact ho2
      have hget : s.buffer[s.next_seq_num]? = some (s.buffer[s.next_seq_num]) :=
        List.getElem?_eq_getElem hlt
      have hu : u32 (s.next_seq_num + 1) = s.next_seq_num + 1 := by
        simp only [u32]; omega
      have hsn : s.send_next =
          ({ s with resend_queue := s.resend_queue ++ [s.buffer[s.next_seq_num]],
                    next_seq_num := s.next_seq_num + 1 },
           [Event.sending (s.buffer[s.next_seq_num]).seq (s.buffer[s.next_seq_num]).crc]) := by
        simp only [Sender.send_next, hget, Sender.addToResendQueue, hu]
      have hmax : max s.next_seq_num (min (u32 (s.base + WINDOW_SIZE)) 10) =
          max (s.next_seq_num + 1) (min (u32 (s.base + WINDOW_SIZE)) 10) := by omega
      have hk : max (s.next_seq_num + 1) (min (u32 (s.base + WINDOW_SIZE)) 10) - s.next_seq_num =
          (max (s.next_seq_num + 1) (min (u32 (s.base + WINDOW_SIZE)) 10) -
            (s.next_seq_num + 1)) + 1 := by omega
      have hdrop : s.buffer.drop s.next_seq_num =
          s.buffer[s.next_seq_num] :: s.buffer.drop (s.next_seq_num + 1) :=
        List.drop_eq_getElem_cons hlt
      have ih1 := ih { s with resend_queue := s.resend_queue ++ [s.buffer[s.next_seq_num]],
                              next_seq_num := s.next_seq_num + 1 } hlen
        (by show 10 - (s.next_seq_num + 1) ≤ n; omega)
      simp only [Sender.fill_loop, hopen, if_true, hsn, ih1, hmax, hk, hdrop, List.take_succ_cons,
        List.map_cons, List.append_assoc, List.singleton_append, List.cons_append,
        List.nil_append]
    · have hclosed : s.window_open = false := by
        simp only [Sender.window_open, hlen, Bool.and_eq_false_iff, decide_eq_false_iff_not]
        by_cases h1 : s.next_seq_num < u32 (s.base + WINDOW_SIZE)
        · right; intro h2; exact ho ⟨h1, h2⟩
        · left; exact h1
      have h1 : max s.next_seq_num (min (u32 (s.base + WINDOW_SIZE)) 10) = s.next_seq_num := by
        omega
      simp [Sender.fill_loop, hclosed, h1]

/-- C12. `fill_window` postcondition.  For every sender state over a backlog
of ten frames the inner fill loop of `send_frames` runs to its exit (the window
is closed afterwards) with
`next_seq_num' = max(next_seq_num, min(base + WINDOW_SIZE, 10))`, the sum being
the `unsigned` sum the source computes (the plain sum whenever it does not wrap,
in particular for every `base ≤ MAX_SEQ`); `base` and the backlog are unchanged,
and the resend queue is extended by exactly the backlog frames at indices
`next_seq_num .. next_seq_num' - 1`, in increasing order, each announced by one
"Sending frame" line. -/
theorem fill_window_postcondition (s : Sender) (hlen : s.buffer.length = 10) :
    s.fill_window.1.next_seq_num =
      max s.next_seq_num (min (u32 (s.base + WINDOW_SIZE)) 10) ∧
    (s.base + WINDOW_SIZE < 2 ^ 32 →
      s.fill_window.1.next_seq_num = max s.next_seq_num (min (s.base + WINDOW_SIZE) 10)) ∧
    s.fill_window.1.base = s.base ∧
    s.fill_window.1.buffer = s.buffer ∧
    s.fill_window.1.resend_queue =
      s.resend_queue ++
        (s.buffer.drop s.next_seq_num).take (s.fill_window.1.next_seq_num - s.next_seq_num) ∧
    s.fill_window.2 =
      ((s.buffer.drop s.next_seq_num).take
        (s.fill_window.1.next_seq_num - s.next_seq_num)).map
        (fun f => Event.sending f.seq f.crc) ∧
    s.fill_window.1.window_open = false := by
  have h := Sender.fill_loop_spec (s.buffer.length - s.next_seq_num) s hlen
    (by rw [hlen])
  have hfw : s.fill_window = Sender.fill_loop (s.buffer.length - s.next_seq_num) s := rfl
  rw [hfw, h]
  refine ⟨rfl, ?_, rfl, rfl, rfl, rfl, ?_⟩
  · intro hw
    show max s.next_seq_num (min (u32 (s.base + WINDOW_SIZE)) 10) = _
    rw [u32, Nat.mod_eq_of_lt hw]
  · show (decide (max s.next_seq_num (min (u32 (s.base + WINDOW_SIZE)) 10) <
          u32 (s.base + WINDOW_SIZE)) &&
        decide (max s.next_seq_num (min (u32 (s.base + WINDOW_SIZE)) 10) < s.buffer.length)) =
        false
    rw [hlen]
    simp only [Bool.and_eq_false_iff, decide_eq_false_iff_not]
    by_cases h1 : u32 (s.base + WINDOW_SIZE) ≤ 10
    · left; omega
    · right; omega

set_option maxRecDepth 100000 in
/-- C12 at a concrete input: the first fill of the window sends frames 0 to 3. -/
theorem fill_window_postcondition_witness :
    clean_init.sender.buffer.length = 10 ∧
    clean_init.sender.fill_window.1.next_seq_num = 4 ∧
    clean_init.sender.fill_window.1.resend_queue = [0, 1, 2, 3].map sample_frame ∧
    (clean_init.sender.fill_window.1.next_seq_num =
      max clean_init.sender.next_seq_num
        (min (u32 (clean_init.sender.base + WINDOW_SIZE)) 10) ∧
    (clean_init.sender.base + WINDOW_SIZE < 2 ^ 32 →
      clean_init.sender.fill_window.1.next_seq_num =
        max clean_init.sender.next_seq_num (min (clean_init.sender.base + WINDOW_SIZE) 10)) ∧
    clean_init.sender.fill_window.1.base = clean_init.sender.base ∧
    clean_init.sender.fill_window.1.buffer = clean_init.sender.buffer ∧
    clean_init.sender.fill_window.1.resend_queue =
      clean_init.sender.resend_queue ++
        (clean_init.sender.buffer.drop clean_init.sender.next_seq_num).take
          (clean_init.sender.fill_window.1.next_seq_num - clean_init.sender.next_seq_num) ∧
    clean_init.sender.fill_window.2 =
      ((clean_init.sender.buffer.drop clean_init.sender.next_seq_num).take
        (clean_init.sender.fill_window.1.next_seq_num - clean_init.sender.next_seq_num)).map
        (fun f => Event.sending f.seq f.crc) ∧
    clean_init.sender.fill_window.1.window_open = false) :=
  ⟨by decide, by decide, by decide, fill_window_postcondition clean_init.sender (by decide)⟩

/-! ## The backlog built by `Sender()` -/

/-- C13, the code at the failing input.  `Sender()` sets `f.seq = i` for
`i = 0 .. 9` without reducing it modulo `MAX_SEQ + 1`: the backlog carries the
sequence numbers 0 to 9, so frames 8 and 9 lie outside `[0, 8)`.  Every `ack`
is 0. -/
theorem backlog_seq_out_of_range (uninit : Nat → List Nat) :
    (Sender.new uninit).buffer.map (fun f => f.seq) = [0, 1, 2, 3, 4, 5, 6, 7, 8, 9] ∧
    (Sender.new uninit).buffer.map (fun f => f.ack) = [0, 0, 0, 0, 0, 0, 0, 0, 0, 0] ∧
    (make_frame (uninit 8) 8 ∈ (Sender.new uninit).buffer ∧
      ¬ (make_frame (uninit 8) 8).seq < MAX_SEQ + 1) ∧
    ¬ ∀ f ∈ (Sender.new uninit).buffer, f.seq < MAX_SEQ + 1 ∧ f.ack < MAX_SEQ + 1 := by
  have hmem : make_frame (uninit 8) 8 ∈ (Sender.new uninit).buffer :=
    List.mem_map.mpr ⟨8, by decide, rfl⟩
  have hseq : ¬ (make_frame (uninit 8) 8).seq < MAX_SEQ + 1 := by
    show ¬ 8 < MAX_SEQ + 1
    decide
  exact ⟨rfl, rfl, ⟨hmem, hseq⟩, fun h => hseq (h _ hmem).1⟩

/-- A sequence number outside `[0, 8)` is never handed upward, whatever
arrives: `expected_seq` only takes values below 8. -/
theorem out_of_range_never_delivered (arrivals : List (Option frame))
    (h : terminated arrivals) (s : Nat) (hs : MAX_SEQ + 1 ≤ s) :
    ∃ r out, Receiver.new.receive_frames arrivals = some (r, out) ∧ s ∉ delivered out := by
  obtain ⟨r, out, n, hrun, _, _, hd, _⟩ :=
    Receiver.receive_frames_spec arrivals Receiver.new 0 Receiver.new_invariant rfl h
  refine ⟨r, out, hrun, ?_⟩
  rw [hd]
  intro hmem
  obtain ⟨i, _, hi⟩ := List.mem_map.mp hmem
  have : i % (MAX_SEQ + 1) < MAX_SEQ + 1 := Nat.mod_lt _ (by decide)
  omega

/-! ## Control entries of the receiver -/

set_option maxRecDepth 100000 in
/-- C14, counterexample.  Backlog frames 1 and 3, each with byte 0 flipped,
fail the checksum comparison.  The control entry enqueued for either is
4294967295 (`-1` as `seq_nr`): it carries neither sequence number, and the two
entries are the same although the sequence numbers differ. -/
theorem nak_entry_carries_no_seq :
    corrupted_sample.seq = 1 ∧ (corrupt_frame (sample_frame 3) 0).seq = 3 ∧
    (Receiver.new.on_frame corrupted_sample).map (fun p => (p.1.ack_queue, p.2)) =
      some ([4294967295], [Event.error_in_frame 1 2715550751]) ∧
    (Receiver.new.on_frame (corrupt_frame (sample_frame 3) 0)).map
        (fun p => (p.1.ack_queue, p.2)) =
      some ([4294967295], [Event.error_in_frame 3 2534769023]) ∧
    (Receiver.new.on_frame corrupted_sample).map (fun p => p.1.ack_queue) ≠
      some [corrupted_sample.seq] ∧
    (Receiver.new.on_frame corrupted_sample).map (fun p => p.1.ack_queue) =
      (Receiver.new.on_frame (corrupt_frame (sample_frame 3) 0)).map (fun p => p.1.ack_queue) := by
  decide

/-- C14, amended.  The control entry the receiver enqueues for a frame that
fails the checksum comparison is the constant `-1` (4294967295 as `seq_nr`),
whatever the frame's `seq`: the entries enqueued for two such frames are equal,
and the drain loop announces the entry as "Sending NAK", without a sequence
number.  The sequence number of the rejected frame appears only in the
"Error in frame" line. -/
theorem nak_entry_constant (r : Receiver) (f g : frame) (c d : Nat)
    (hf : frame_crc f = some c) (hcf : c ≠ f.crc)
    (hg : frame_crc g = some d) (hdg : d ≠ g.crc) :
    ∃ r1 r2, r.on_frame f = some (r1, [Event.error_in_frame f.seq c]) ∧
      r.on_frame g = some (r2, [Event.error_in_frame g.seq d]) ∧
      r1.ack_queue = r.ack_queue ++ [NAK_MARK] ∧
      r2.ack_queue = r.ack_queue ++ [NAK_MARK] ∧
      r1.ack_queue = r2.ack_queue ∧
      Receiver.send_acks [NAK_MARK] = [Event.sending_nak] := by
  refine ⟨{ r with ack_queue := r.ack_queue ++ [NAK_MARK] },
    { r with ack_queue := r.ack_queue ++ [NAK_MARK] }, ?_, ?_, rfl, rfl, rfl, ?_⟩
  · simp [Receiver.on_frame, hf, hcf]
  · simp [Receiver.on_frame, hg, hdg]
  · simp [Receiver.send_acks]

set_option maxRecDepth 100000 in
/-- C14, amended, at the two frames of the counterexample. -/
theorem nak_entry_constant_witness :
    frame_crc corrupted_sample = some 2715550751 ∧ 2715550751 ≠ corrupted_sample.crc ∧
    frame_crc (corrupt_frame (sample_frame 3) 0) = some 2534769023 ∧
    2534769023 ≠ (corrupt_frame (sample_frame 3) 0).crc ∧
    ∃ r1 r2,
      Receiver.new.on_frame corrupted_sample =
        some (r1, [Event.error_in_frame corrupted_sample.seq 2715550751]) ∧
      Receiver.new.on_frame (corrupt_frame (sample_frame 3) 0) =
        some (r2, [Event.error_in_frame (corrupt_frame (sample_frame 3) 0).seq 2534769023]) ∧
      r1.ack_queue = Receiver.new.ack_queue ++ [NAK_MARK] ∧
      r2.ack_queue = Receiver.new.ack_queue ++ [NAK_MARK] ∧
      r1.ack_queue = r2.ack_queue ∧
      Receiver.send_acks [NAK_MARK] = [Event.sending_nak] :=
  ⟨by decide, by decide, by decide, by decide,
   nak_entry_constant Receiver.new corrupted_sample (corrupt_frame (sample_frame 3) 0)
     2715550751 2534769023 (by decide) (by decide) (by decide) (by decide)⟩

/-- C15. Every checksum-valid frame is acknowledged by its own sequence
number.  For every receiver state and every frame `f` whose recomputed checksum
equals `f.crc`, the treatment of `f` appends exactly one entry to the
acknowledgment queue, equal to `f.seq` (not to `expected_seq`), whether `f` is
in order or not; the drain loop announces it as "Sending ACK for frame f.seq"
(for every `seq` other than 4294967295, the value that marks a NAK).  When
`f.seq ≠ expected_seq` the frame is stored under key `f.seq` and `expected_seq`
is unchanged. -/
theorem valid_frame_acknowledged (r : Receiver) (f : frame)
    (hc : frame_crc f = some f.crc) :
    ∃ r1 out, r.on_frame f = some (r1, out) ∧
      r1.ack_queue = r.ack_queue ++ [f.seq] ∧
      (f.seq ≠ NAK_MARK → Receiver.send_acks [f.seq] = [Event.sending_ack f.seq]) ∧
      (f.seq ≠ r.expected_seq →
        r1.buffer = r.buffer.assign f.seq f ∧ r1.buffer.find f.seq = some f ∧
        r1.expected_seq = r.expected_seq ∧
        out = [Event.received f.seq, Event.out_of_order f.seq]) := by
  have hack : f.seq ≠ NAK_MARK → Receiver.send_acks [f.seq] = [Event.sending_ack f.seq] := by
    intro h; simp [Receiver.send_acks, h]
  by_cases hseq : f.seq = r.expected_seq
  · refine ⟨{ buffer := (deliver_in_order r.buffer r.expected_seq).1,
              expected_seq := ((deliver_in_order r.buffer r.expected_seq).2.1 + 1) % (MAX_SEQ + 1),
              ack_queue := r.ack_queue ++ [f.seq] },
        [Event.received f.seq, Event.delivering_frame f.seq] ++
          (deliver_in_order r.buffer r.expected_seq).2.2, ?_, rfl, hack,
        fun h => absurd hseq h⟩
    simp [Receiver.on_frame, hc, hseq]
  · refine ⟨{ r with buffer := r.buffer.assign f.seq f, ack_queue := r.ack_queue ++ [f.seq] },
        [Event.received f.seq, Event.out_of_order f.seq], ?_, rfl, hack, fun _ =>
        ⟨rfl, Buffer.find_assign_self _ _ _, rfl, rfl⟩⟩
    simp [Receiver.on_frame, hc, hseq]

set_option maxRecDepth 100000 in
/-- C15 at a concrete input: frame 3 arriving while frame 1 is expected. -/
theorem valid_frame_acknowledged_witness :
    frame_crc (sample_frame 3) = some (sample_frame 3).crc ∧
    ∃ r1 out, waiting_receiver.on_frame (sample_frame 3) = some (r1, out) ∧
      r1.ack_queue = waiting_receiver.ack_queue ++ [(sample_frame 3).seq] ∧
      ((sample_frame 3).seq ≠ NAK_MARK →
        Receiver.send_acks [(sample_frame 3).seq] = [Event.sending_ack (sample_frame 3).seq]) ∧
      ((sample_frame 3).seq ≠ waiting_receiver.expected_seq →
        r1.buffer = waiting_receiver.buffer.assign (sample_frame 3).seq (sample_frame 3) ∧
        r1.buffer.find (sample_frame 3).seq = some (sample_frame 3) ∧
        r1.expected_seq = waiting_receiver.expected_seq ∧
        out = [Event.received (sample_frame 3).seq, Event.out_of_order (sample_frame 3).seq]) :=
  ⟨by decide, valid_frame_acknowledged waiting_receiver (sample_frame 3) (by decide)⟩

/-! ## `corrupt_frame` and the checksum round trip -/

theorem byte_flip (b : Nat) (hb : b < 256) :
    (b ^^^ 0xFF) % 256 = b ^^^ 0xFF ∧ b ^^^ 0xFF < 256 ∧ b ^^^ 0xFF ≠ b := by
  have hlt : b ^^^ 0xFF < 2 ^ 8 := Nat.xor_lt_two_pow (n := 8) hb (by decide)
  refine ⟨Nat.mod_eq_of_lt hlt, hlt, ?_⟩
  intro h
  have h2 : (b ^^^ 0xFF) ^^^ b = 0 := by rw [h, Nat.xor_self]
  rw [Nat.xor_comm b 0xFF, Nat.xor_assoc, Nat.xor_self, Nat.xor_zero] at h2
  cases h2

/-- C16. `corrupt_frame` changes exactly one payload byte and nothing else.
For every frame `f` with a payload of `MAX_PKT` bytes and every value `rnd` of
`rand()`, with `i = rnd % MAX_PKT` the chosen index (any index in
`[0, MAX_PKT)`): byte `i` of the result is the original byte XOR `0xFF`, which
differs from it; every other payload byte is unchanged; the payload keeps its
size; `crc`, `seq`, `ack` and `kind` are unchanged. -/
theorem corrupt_frame_effect (f : frame) (rnd : Nat) (hlen : f.info.data.length = MAX_PKT)
    (hbytes : ∀ b ∈ f.info.data, b < 256) :
    rnd % MAX_PKT < MAX_PKT ∧
    (∃ b, f.info.data[rnd % MAX_PKT]? = some b ∧
      (corrupt_frame f rnd).info.data[rnd % MAX_PKT]? = some (b ^^^ 0xFF) ∧ b ^^^ 0xFF ≠ b) ∧
    (∀ j, j ≠ rnd % MAX_PKT → (corrupt_frame f rnd).info.data[j]? = f.info.data[j]?) ∧
    (corrupt_frame f rnd).info.data.length = MAX_PKT ∧
    (corrupt_frame f rnd).crc = f.crc ∧ (corrupt_frame f rnd).seq = f.seq ∧
    (corrupt_frame f rnd).ack = f.ack ∧ (corrupt_frame f rnd).kind = f.kind := by
  have hi : rnd % MAX_PKT < MAX_PKT := Nat.mod_lt _ (by decide)
  have hil : rnd % MAX_PKT < f.info.data.length := by rw [hlen]; exact hi
  have hdata : (corrupt_frame f rnd).info.data =
      List.modify (fun b => (b ^^^ 0xFF) % 256) (rnd % MAX_PKT) f.info.data := rfl
  refine ⟨hi, ⟨f.info.data[rnd % MAX_PKT], List.getElem?_eq_getElem hil, ?_, ?_⟩, ?_, ?_,
    rfl, rfl, rfl, rfl⟩
  · rw [hdata, List.getElem?_modify_eq, List.getElem?_eq_getElem hil]
    show some ((f.info.data[rnd % MAX_PKT] ^^^ 0xFF) % 256) = _
    rw [(byte_flip _ (hbytes _ (List.getElem_mem hil))).1]
  · exact (byte_flip _ (hbytes _ (List.getElem_mem hil))).2.2
  · intro j hj
    rw [hdata, List.getElem?_modify_ne _ _ (Ne.symm hj)]
  · rw [hdata, List.length_modify, hlen]

set_option maxRecDepth 100000 in
/-- C16 at a concrete input: backlog frame 3 and `rand()` returning 26, which
chooses byte 10. -/
theorem corrupt_frame_effect_witness :
    (sample_frame 3).info.data.length = MAX_PKT ∧
    (∀ b ∈ (sample_frame 3).info.data, b < 256) ∧
    26 % MAX_PKT < MAX_PKT ∧
    (∃ b, (sample_frame 3).info.data[26 % MAX_PKT]? = some b ∧
      (corrupt_frame (sample_frame 3) 26).info.data[26 % MAX_PKT]? = some (b ^^^ 0xFF) ∧
      b ^^^ 0xFF ≠ b) ∧
    (∀ j, j ≠ 26 % MAX_PKT →
      (corrupt_frame (sample_frame 3) 26).info.data[j]? = (sample_frame 3).info.data[j]?) ∧
    (corrupt_frame (sample_frame 3) 26).info.data.length = MAX_PKT ∧
    (corrupt_frame (sample_frame 3) 26).crc = (sample_frame 3).crc ∧
    (corrupt_frame (sample_frame 3) 26).seq = (sample_frame 3).seq ∧
    (corrupt_frame (sample_frame 3) 26).ack = (sample_frame 3).ack ∧
    (corrupt_frame (sample_frame 3) 26).kind = (sample_frame 3).kind :=
  ⟨by decide, by decide, corrupt_frame_effect (sample_frame 3) 26 (by decide) (by decide)⟩

/-- C17. Checksum round trip.  The checksum is a function of the payload
alone, so the value the receiver recomputes over a payload is the value the
sender computed over it; a frame whose `crc` field holds the checksum of its
payload takes the receiver's checksum-match branch ("Received frame" is
printed, no NAK is enqueued) in every receiver state.  In particular each of
the ten frames built by `Sender()`, before corruption injection and whatever
the indeterminate bytes, carries the checksum of its payload and takes the
match branch. -/
theorem checksum_round_trip :
    (∀ f g : frame, f.info = g.info → frame_crc f = frame_crc g) ∧
    (∀ (r : Receiver) (f : frame), frame_crc f = some f.crc →
      ∃ r1 out, r.on_frame f = some (r1, out) ∧ Event.received f.seq ∈ out ∧
        r1.ack_queue = r.ack_queue ++ [f.seq]) ∧
    (∀ (uninit : Nat → List Nat), ∀ f ∈ (Sender.new uninit).buffer,
      frame_crc f = some f.crc ∧
      ∀ r : Receiver, ∃ r1 out, r.on_frame f = some (r1, out) ∧ Event.received f.seq ∈ out ∧
        r1.ack_queue = r.ack_queue ++ [f.seq]) := by
  have hmatch : ∀ (r : Receiver) (f : frame), frame_crc f = some f.crc →
      ∃ r1 out, r.on_frame f = some (r1, out) ∧ Event.received f.seq ∈ out ∧
        r1.ack_queue = r.ack_queue ++ [f.seq] := by
    intro r f hc
    by_cases hseq : f.seq = r.expected_seq
    · refine ⟨{ buffer := (deliver_in_order r.buffer r.expected_seq).1,
                expected_seq :=
                  ((deliver_in_order r.buffer r.expected_seq).2.1 + 1) % (MAX_SEQ + 1),
                ack_queue := r.ack_queue ++ [f.seq] },
          [Event.received f.seq, Event.delivering_frame f.seq] ++
            (deliver_in_order r.buffer r.expected_seq).2.2, ?_, by simp, rfl⟩
      simp [Receiver.on_frame, hc, hseq]
    · refine ⟨{ r with buffer := r.buffer.assign f.seq f, ack_queue := r.ack_queue ++ [f.seq] },
          [Event.received f.seq, Event.out_of_order f.seq], ?_, by simp, rfl⟩
      simp [Receiver.on_frame, hc, hseq]
  refine ⟨?_, hmatch, ?_⟩
  · intro f g h
    simp only [frame_crc, h]
  · intro uninit f hf
    obtain ⟨i, hi, hfi⟩ := List.mem_map.mp hf
    have hi10 : i < 10 := List.mem_range.mp hi
    have hcrc : frame_crc f = some f.crc := by
      rw [← hfi]
      obtain ⟨hd, hc⟩ := make_frame_data (uninit i) i hi10
      have h48 : (48 + i != 0) = true := by simp
      unfold frame_crc
      rw [hd, hc]
      simp [c_str, List.takeWhile, h48]
    exact ⟨hcrc, fun r => hmatch r f hcrc⟩

set_option maxRecDepth 100000 in
/-- C17 at a concrete input: backlog frame 3 arriving at the fresh receiver. -/
theorem checksum_round_trip_witness :
    frame_crc (sample_frame 3) = some (sample_frame 3).crc ∧
    ∃ r1 out, Receiver.new.on_frame (sample_frame 3) = some (r1, out) ∧
      Event.received (sample_frame 3).seq ∈ out ∧
      r1.ack_queue = Receiver.new.ack_queue ++ [(sample_frame 3).seq] :=
  ⟨by decide, checksum_round_trip.2.1 Receiver.new (sample_frame 3) (by decide)⟩

/-! ## The flush in closed form -/

/-- The loop of `deliver_in_order` from a sequence number below 8, with
enough passes allowed: the number `k` of passes and what they do. -/
theorem deliver_loop_flush (n : Nat) : ∀ (b : Buffer) (e : Nat), e < 8 → b.length ≤ n →
    ∃ k, k ≤ 8 ∧
      (∀ j, j < k → ∃ g, b.find ((e + j) % 8) = some g ∧
        (deliver_loop n b e).2.2[j]? = some (Event.delivering_packet g.seq)) ∧
      (k < 8 → b.find ((e + k) % 8) = none) ∧
      (deliver_loop n b e).2.2.length = k ∧
      (∀ j, j < k → (deliver_loop n b e).1.find ((e + j) % 8) = none) ∧
      (∀ key, (∀ j, j < k → key ≠ (e + j) % 8) →
        (deliver_loop n b e).1.find key = b.find key) ∧
      (deliver_loop n b e).2.1 = (e + k) % 8 ∧
      (deliver_loop n b e).1.find ((e + k) % 8) = none := by
  induction n with
  | zero =>
    intro b e he hlen
    have hb : b = [] := List.length_eq_zero.mp (Nat.le_zero.mp hlen)
    subst hb
    refine ⟨0, by omega, fun j hj => by omega, fun _ => rfl, rfl, fun j hj => by omega,
      fun key _ => rfl, ?_, rfl⟩
    show e = (e + 0) % 8
    omega
  | succ n ih =>
    intro b e he hlen
    have he0 : (e + 0) % 8 = e := by omega
    cases hf : b.find e with
    | none =>
      rw [deliver_loop_none _ _ _ hf]
      refine ⟨0, by omega, fun j hj => by omega, fun _ => by rw [he0]; exact hf, rfl,
        fun j hj => by omega, fun key _ => rfl, he0.symm, by rw [he0]; exact hf⟩
    | some f =>
      rw [deliver_loop_some _ _ _ _ hf]
      have hM : (e + 1) % (MAX_SEQ + 1) = (e + 1) % 8 := rfl
      rw [hM]
      have hlen1 : (b.erase e).length ≤ n := by
        have := Buffer.erase_length_lt b e f hf
        omega
      obtain ⟨k, hk8, hpres, habs, hlenk, hrem, hoth, hnew, hexit⟩ :=
        ih (b.erase e) ((e + 1) % 8) (Nat.mod_lt _ (by decide)) hlen1
      have hshift : ∀ j, ((e + 1) % 8 + j) % 8 = (e + (j + 1)) % 8 := fun j => by omega
      have hk7 : k ≤ 7 := by
        by_contra hc
        obtain ⟨g, hg, _⟩ := hpres 7 (by omega)
        have h7 : ((e + 1) % 8 + 7) % 8 = e := by omega
        rw [h7, Buffer.find_erase_self] at hg
        cases hg
      have hup : ∀ x g, (b.erase e).find x = some g → b.find x = some g := by
        intro x g hx
        by_cases hxe : x = e
        · subst hxe; rw [Buffer.find_erase_self] at hx; cases hx
        · rwa [Buffer.find_erase_ne _ _ _ hxe] at hx
      refine ⟨k + 1, by omega, ?_, ?_, ?_, ?_, ?_, ?_, ?_⟩
      · intro j hj
        cases j with
        | zero => exact ⟨f, by rw [he0]; exact hf, List.getElem?_cons_zero⟩
        | succ j =>
          obtain ⟨g, hg, hev⟩ := hpres j (by omega)
          rw [hshift] at hg
          exact ⟨g, hup _ _ hg, by rw [List.getElem?_cons_succ]; exact hev⟩
      · intro hlt
        have h1 := habs (by omega)
        rw [hshift] at h1
        have hne : (e + (k + 1)) % 8 ≠ e := by omega
        rwa [Buffer.find_erase_ne _ _ _ hne] at h1
      · simp only [List.length_cons, hlenk]
      · intro j hj
        cases j with
        | zero =>
          rw [he0]
          cases hr : (deliver_loop n (b.erase e) ((e + 1) % 8)).1.find e with
          | none => rfl
          | some g =>
            have := deliver_loop_find _ _ _ _ _ hr
            rw [Buffer.find_erase_self] at this
            cases this
        | succ j =>
          have h1 := hrem j (by omega)
          rwa [hshift] at h1
      · intro key hkey
        have hne : key ≠ e := by
          have := hkey 0 (by omega)
          rwa [he0] at this
        rw [hoth key (fun j hj => by rw [hshift]; exact hkey (j + 1) (by omega)),
          Buffer.find_erase_ne _ _ _ hne]
      · show (deliver_loop n (b.erase e) ((e + 1) % 8)).2.1 = _
        rw [hnew, hshift]
      · rw [hshift] at hexit
        exact hexit

/-- C18. Flush postcondition.  For every buffer and every `expected_seq`
`e` in `[0, 8)`, `deliver_in_order` stops after `k ≤ 8` passes, where `k` is
the least number such that `(e + k) mod 8` is not a key of the buffer at that
moment: the keys `e, e+1, ..., e+k-1 (mod 8)` are keys of the buffer and
`(e + k) mod 8` is not (when `k = 8` all eight sequence numbers were keys and
the first pass erased key `e`).  It delivers the entries under those keys in
that order, one per pass, removes exactly those keys, leaves the entry under
every other key untouched, and ends with `expected_seq = (e + k) mod 8`, which
is not a key of the resulting buffer. -/
theorem flush_postcondition (b : Buffer) (e : Nat) (he : e < MAX_SEQ + 1) :
    ∃ k, k ≤ MAX_SEQ + 1 ∧
      (∀ j, j < k → ∃ g, b.find ((e + j) % (MAX_SEQ + 1)) = some g ∧
        (deliver_in_order b e).2.2[j]? = some (Event.delivering_packet g.seq)) ∧
      (k < MAX_SEQ + 1 → b.find ((e + k) % (MAX_SEQ + 1)) = none) ∧
      (deliver_in_order b e).2.2.length = k ∧
      (∀ j, j < k → (deliver_in_order b e).1.find ((e + j) % (MAX_SEQ + 1)) = none) ∧
      (∀ key, (∀ j, j < k → key ≠ (e + j) % (MAX_SEQ + 1)) →
        (deliver_in_order b e).1.find key = b.find key) ∧
      (deliver_in_order b e).2.1 = (e + k) % (MAX_SEQ + 1) ∧
      (deliver_in_order b e).1.find (deliver_in_order b e).2.1 = none := by
  obtain ⟨k, h1, h2, h3, h4, h5, h6, h7, h8⟩ :=
    deliver_loop_flush b.length b e he (Nat.le_refl _)
  refine ⟨k, h1, h2, h3, h4, h5, h6, h7, ?_⟩
  show (deliver_loop b.length b e).1.find (deliver_loop b.length b e).2.1 = none
  rw [h7]; exact h8

set_option maxRecDepth 100000 in
/-- C18 at a concrete input with `k = 8`: a buffer with entries under all of
0 to 7 and under 9, flushed from `expected_seq = 3`. -/
theorem flush_postcondition_witness :
    3 < MAX_SEQ + 1 ∧
    ∃ k, k ≤ MAX_SEQ + 1 ∧
      (∀ j, j < k → ∃ g, crowded_buffer.find ((3 + j) % (MAX_SEQ + 1)) = some g ∧
        (deliver_in_order crowded_buffer 3).2.2[j]? = some (Event.delivering_packet g.seq)) ∧
      (k < MAX_SEQ + 1 → crowded_buffer.find ((3 + k) % (MAX_SEQ + 1)) = none) ∧
      (deliver_in_order crowded_buffer 3).2.2.length = k ∧
      (∀ j, j < k →
        (deliver_in_order crowded_buffer 3).1.find ((3 + j) % (MAX_SEQ + 1)) = none) ∧
      (∀ key, (∀ j, j < k → key ≠ (3 + j) % (MAX_SEQ + 1)) →
        (deliver_in_order crowded_buffer 3).1.find key = crowded_buffer.find key) ∧
      (deliver_in_order crowded_buffer 3).2.1 = (3 + k) % (MAX_SEQ + 1) ∧
      (deliver_in_order crowded_buffer 3).1.find (deliver_in_order crowded_buffer 3).2.1 =
        none :=
  ⟨by decide, flush_postcondition crowded_buffer 3 (by decide)⟩

set_option maxRecDepth 100000 in
/-- The flush of the witness, evaluated: eight passes deliver 3, 4, 5, 6, 7, 0,
1, 2 and stop at `expected_seq = 3`, whose entry the first pass erased; the
entry under key 9 stays. -/
theorem flush_crowded_buffer :
    deliver_in_order crowded_buffer 3 =
      ([(9, sample_frame 9)], 3,
       [3, 4, 5, 6, 7, 0, 1, 2].map (fun s => Event.delivering_packet s)) := by
  decide

/-! ## The checksum as a number -/

set_option maxRecDepth 100000 in
/-- C19, the code at the failing input.  For the ASCII string "123456789" the
standard CRC-32 is the check value `0xCBF43926`, and `calculate_crc` returns
1961752511 (`0x74EDF7BF`): the function shifts the register left from the top
bit while using the constant of the reflected (right-shifting) algorithm, so
it is not the CRC-32 its comment names. -/
theorem calculate_crc_not_crc32 :
    standard_crc32 check_string = 0xCBF43926 ∧
    calculate_crc check_string = 1961752511 ∧
    calculate_crc check_string ≠ standard_crc32 check_string ∧
    calculate_crc [68, 97, 116, 97, 32, 51] ≠ standard_crc32 [68, 97, 116, 97, 32, 51] := by
  decide

theorem xor_mod_two_pow (a b n : Nat) : (a ^^^ b) % 2 ^ n = (a % 2 ^ n) ^^^ (b % 2 ^ n) := by
  apply Nat.eq_of_testBit_eq
  intro i
  simp only [Nat.testBit_mod_two_pow, Nat.testBit_xor]
  by_cases h : i < n <;> simp [h]

/-- A register step doubles the register modulo 32: the polynomial constant
has its five low bits clear. -/
theorem crc_bit_mod_32 (x : Nat) : crc_bit x % 32 = (2 * x) % 32 ∧ crc_bit x < 2 ^ 32 := by
  have hs : u32 (x <<< 1) = (2 * x) % 4294967296 := by
    simp only [u32, Nat.shiftLeft_eq]
    norm_num [Nat.mul_comm]
  have hlt : u32 (x <<< 1) < 2 ^ 32 := Nat.mod_lt _ (by decide)
  unfold crc_bit
  split
  · constructor
    · have h := xor_mod_two_pow (u32 (x <<< 1)) CRC_POLYNOMIAL 5
      have hp : CRC_POLYNOMIAL % 2 ^ 5 = 0 := by decide
      rw [hp, Nat.xor_zero] at h
      have h5 : (2 : Nat) ^ 5 = 32 := by decide
      rw [h5] at h
      rw [h, hs]
      omega
    · exact Nat.xor_lt_two_pow hlt (by decide)
  · exact ⟨by rw [hs]; omega, hlt⟩

/-- After the eight register steps of a byte the five low bits of the register
are clear. -/
theorem crc_byte_mod_32 (crc byte : Nat) :
    crc_byte crc byte % 32 = 0 ∧ crc_byte crc byte < 2 ^ 32 := by
  have h8 : ∀ x, crc_bit^[8] x =
      crc_bit (crc_bit (crc_bit (crc_bit (crc_bit (crc_bit (crc_bit (crc_bit x))))))) :=
    fun _ => rfl
  unfold crc_byte
  rw [h8]
  generalize crc ^^^ u32 (byte <<< 24) = x
  have h1 := (crc_bit_mod_32 x).1
  have h2 := (crc_bit_mod_32 (crc_bit x)).1
  have h3 := (crc_bit_mod_32 (crc_bit (crc_bit x))).1
  have h4 := (crc_bit_mod_32 (crc_bit (crc_bit (crc_bit x)))).1
  have h5 := (crc_bit_mod_32 (crc_bit (crc_bit (crc_bit (crc_bit x))))).1
  have h6 := (crc_bit_mod_32 (crc_bit (crc_bit (crc_bit (crc_bit (crc_bit x)))))).1
  have h7 := (crc_bit_mod_32 (crc_bit (crc_bit (crc_bit (crc_bit (crc_bit (crc_bit x))))))).1
  have h9 := crc_bit_mod_32
    (crc_bit (crc_bit (crc_bit (crc_bit (crc_bit (crc_bit (crc_bit x)))))))
  exact ⟨by omega, h9.2⟩

/-- C20. For every non-empty byte string the five least significant bits of
the result of `calculate_crc` are all ones: `result AND 0x1F = 0x1F`.  Each
register step shifts left and the polynomial constant has its five low bits
clear, so the register ends every byte as a multiple of 32, and the final
complement turns its five low bits into ones.  Hence the result is
`32 * q + 31` with `q < 2^27`: at most 27 bits depend on the payload. -/
theorem checksum_low_bits (data : List Nat) (h : data ≠ []) :
    calculate_crc data &&& 0x1F = 0x1F ∧
    calculate_crc data % 32 = 31 ∧
    ∃ q, q < 2 ^ 27 ∧ calculate_crc data = 32 * q + 31 := by
  have hsplit := List.dropLast_append_getLast h
  have hfold : data.foldl crc_byte 0xFFFFFFFF =
      crc_byte (data.dropLast.foldl crc_byte 0xFFFFFFFF) (data.getLast h) := by
    conv_lhs => rw [← hsplit]
    rw [List.foldl_append]
    rfl
  obtain ⟨hm, hlt⟩ := crc_byte_mod_32 (data.dropLast.foldl crc_byte 0xFFFFFFFF) (data.getLast h)
  rw [← hfold] at hm hlt
  have hx := xor_mod_two_pow (data.foldl crc_byte 0xFFFFFFFF) 0xFFFFFFFF 5
  have h5 : (2 : Nat) ^ 5 = 32 := by decide
  rw [h5, hm] at hx
  have hx31 : (data.foldl crc_byte 0xFFFFFFFF ^^^ 0xFFFFFFFF) % 32 = 31 := by
    rw [hx]; decide
  have hxlt : data.foldl crc_byte 0xFFFFFFFF ^^^ 0xFFFFFFFF < 2 ^ 32 :=
    Nat.xor_lt_two_pow hlt (by decide)
  have hcrc : calculate_crc data = data.foldl crc_byte 0xFFFFFFFF ^^^ 0xFFFFFFFF := by
    unfold calculate_crc u32
    exact Nat.mod_eq_of_lt hxlt
  have hmod : calculate_crc data % 32 = 31 := by rw [hcrc]; exact hx31
  have hand : calculate_crc data &&& 0x1F = calculate_crc data % 32 :=
    Nat.and_pow_two_sub_one_eq_mod (calculate_crc data) 5
  refine ⟨by rw [hand, hmod], hmod, calculate_crc data / 32, ?_, ?_⟩
  · rw [hcrc]
    have : (2 : Nat) ^ 32 = 32 * 2 ^ 27 := by decide
    omega
  · omega

set_option maxRecDepth 100000 in
/-- C20 at a concrete input: the payload text of backlog frame 3. -/
theorem checksum_low_bits_witness :
    [68, 97, 116, 97, 32, 51] ≠ ([] : List Nat) ∧
    calculate_crc [68, 97, 116, 97, 32, 51] = 740169439 ∧
    (calculate_crc [68, 97, 116, 97, 32, 51] &&& 0x1F = 0x1F ∧
     calculate_crc [68, 97, 116, 97, 32, 51] % 32 = 31 ∧
     ∃ q, q < 2 ^ 27 ∧ calculate_crc [68, 97, 116, 97, 32, 51] = 32 * q + 31) :=
  ⟨by decide, by decide, checksum_low_bits [68, 97, 116, 97, 32, 51] (by decide)⟩

end ARQ
